import Mathlib

set_option maxHeartbeats 1000000
set_option maxRecDepth 8192

/-!
Shallow embedding of anonym.py, the field-handler anonymization core of the
anonym repository.  Python strings are modelled as lists of characters,
Python dicts as association lists, CPython floats as exact rationals (all
values reached by the modelled flows are finite decimal fractions), and the
external synthetic-data generator (faker), the random stream and the
JSON-path engine as an oracle structure of pure functions indexed by a call
counter.  Raised exceptions are modelled by Option-valued results (none =
the call raises).
-/

/-! ## Python string primitives (ASCII scope) -/

abbrev PyStr := List Char

/-- Python str.find(c, start) for a single-character needle: index of the first
occurrence of c at position ≥ start, or -1 when there is none. -/
def pyFindCharFrom (s : PyStr) (c : Char) (start : Nat) : Int :=
  match (s.drop start).findIdx? (fun a => a == c) with
  | none => -1
  | some i => (start : Int) + i

/-- The while loop of find_nth: while start >= 0 and n > 1, advance to the next
occurrence and decrement n. -/
def findLoop (s : PyStr) (c : Char) : Int → Nat → Int
  | start, n + 2 =>
      if start < 0 then start
      else findLoop s c (pyFindCharFrom s c (start.toNat + 1)) (n + 1)
  | start, _ => start

/-- find_nth from the source: position of the n-th occurrence of the substring,
-1 when absent.  Every call site passes a single-character substring, so the
needle is modelled as a Char (start + len(sub) = start + 1). -/
def find_nth (s : PyStr) (c : Char) (n : Nat) : Int :=
  findLoop s c (pyFindCharFrom s c 0) n

/-- Python slice s[:i] with a possibly negative i. -/
def pySliceTo (s : PyStr) (i : Int) : PyStr :=
  if 0 ≤ i then s.take i.toNat else s.take (s.length - min i.natAbs s.length)

/-- Python slice s[i:] with a possibly negative i. -/
def pySliceFrom (s : PyStr) (i : Int) : PyStr :=
  if 0 ≤ i then s.drop i.toNat else s.drop (s.length - min i.natAbs s.length)

/-- Python str.split(c) on a single-character separator (the only form the
source uses): yields the parts between occurrences, and [""] on "". -/
def pySplit (s : PyStr) (c : Char) : List PyStr :=
  match s with
  | [] => [[]]
  | a :: rest =>
      if a = c then [] :: pySplit rest c
      else
        match pySplit rest c with
        | [] => [[a]]
        | p :: ps => (a :: p) :: ps

/-- Python str.lower (ASCII scope). -/
def pyLower (s : PyStr) : PyStr := s.map Char.toLower

/-! ## Decimal and float conversions -/

/-- Decimal digits of a natural number, as printed by Python. -/
def decStr (n : Nat) : PyStr := Nat.toDigits 10 n

/-- Python str(int). -/
def intStr (i : Int) : PyStr :=
  if i < 0 then '-' :: decStr i.natAbs else decStr i.toNat

/-- Value of a string of decimal digits. -/
def digitsVal (s : PyStr) : Nat :=
  s.foldl (fun acc c => acc * 10 + (c.toNat - 48)) 0

/-- Strip ASCII whitespace from both ends (Python int()/float() leniency). -/
def stripWS (s : PyStr) : PyStr :=
  ((s.dropWhile (fun c => c.isWhitespace)).reverse.dropWhile
    (fun c => c.isWhitespace)).reverse

/-- Digit run with optional single underscores strictly between digits, as
accepted by Python int() after the sign. -/
def dwuAux : PyStr → Bool
  | [] => false
  | [c] => c.isDigit
  | c :: '_' :: rest => c.isDigit && dwuAux rest
  | c :: rest => c.isDigit && dwuAux rest

/-- Python int(str) on ASCII input: optional surrounding whitespace, optional
sign, digits with embedded single underscores. -/
def pyInt (s : PyStr) : Option Int :=
  let t := stripWS s
  match t with
  | '+' :: rest =>
      if dwuAux rest then some (digitsVal (rest.filter (fun c => c ≠ '_'))) else none
  | '-' :: rest =>
      if dwuAux rest then some (-(digitsVal (rest.filter (fun c => c ≠ '_')) : Int)) else none
  | rest =>
      if dwuAux rest then some (digitsVal (rest.filter (fun c => c ≠ '_'))) else none

/-- Mantissa of a float literal: digits with at most one dot and at least one
digit overall. -/
def pyFloatCore (s : PyStr) : Option ℚ :=
  match pySplit s '.' with
  | [a] =>
      if a ≠ [] ∧ a.all Char.isDigit then some (digitsVal a) else none
  | [a, b] =>
      if (a ++ b) ≠ [] ∧ (a ++ b).all Char.isDigit then
        some ((digitsVal a : ℚ) + (digitsVal b : ℚ) / (10 : ℚ) ^ b.length)
      else none
  | _ => none

/-- Split a float literal at its first exponent marker. -/
def splitOnExp : PyStr → PyStr × Option PyStr
  | [] => ([], none)
  | c :: rest =>
      if c = 'e' ∨ c = 'E' then ([], some rest)
      else
        let p := splitOnExp rest
        (c :: p.1, p.2)

/-- Exponent part of a float literal: optional sign then digits. -/
def expVal (e : PyStr) : Option Int :=
  match e with
  | '+' :: ds => if ds ≠ [] ∧ ds.all Char.isDigit then some (digitsVal ds) else none
  | '-' :: ds => if ds ≠ [] ∧ ds.all Char.isDigit then some (-(digitsVal ds : Int)) else none
  | ds => if ds ≠ [] ∧ ds.all Char.isDigit then some ((digitsVal ds : Int)) else none

/-- Python float(str) on ASCII decimal input (inf/nan and underscore forms are
outside the modelled scope); the value is the exact rational denoted by the
literal. -/
def pyFloatParse (s : PyStr) : Option ℚ :=
  let t := stripWS s
  let p : ℚ × PyStr :=
    if t.headD ' ' = '+' then (1, t.tail)
    else if t.headD ' ' = '-' then (-1, t.tail)
    else (1, t)
  let m := splitOnExp p.2
  match pyFloatCore m.1 with
  | none => none
  | some q =>
      match m.2 with
      | none => some (p.1 * q)
      | some e =>
          match expVal e with
          | none => none
          | some v => some (p.1 * q * (10 : ℚ) ^ (v : ℤ))

/-- Least decimal exponent k with q·10^k integral (bounded search; every value
in the modelled flows is a finite decimal fraction). -/
def decExpSearch (q : ℚ) : Option Nat :=
  (List.range 40).find? (fun k => (q * (10 : ℚ) ^ k).den = 1)

/-- Pad a digit string with leading zeros to width k. -/
def padZeros (s : PyStr) (k : Nat) : PyStr :=
  List.replicate (k - s.length) '0' ++ s

/-- Python str(float) for finite decimal fractions: the shortest exact decimal
form, with a trailing ".0" for integral values (the exponent regimes of very
large/small magnitudes are outside the modelled scope). -/
def pyFloatStr (q : ℚ) : PyStr :=
  let sgn : PyStr := if q < 0 then ['-'] else []
  let a := |q|
  match decExpSearch a with
  | some 0 => sgn ++ decStr a.num.toNat ++ ['.', '0']
  | some (k + 1) =>
      let n := (a * (10 : ℚ) ^ (k + 1)).num.toNat
      sgn ++ decStr (n / 10 ^ (k + 1)) ++ ['.'] ++ padZeros (decStr (n % 10 ^ (k + 1))) (k + 1)
  | none => sgn ++ decStr a.num.natAbs ++ ['.', '0']

/-- Round half to even at integer resolution (printf rounding used by "%.3f"
after scaling by 1000). -/
def rhe (x : ℚ) : Int :=
  let f := ⌊x⌋
  let r := x - (f : ℚ)
  if r < 1 / 2 then f
  else if (1 : ℚ) / 2 < r then f + 1
  else if f % 2 = 0 then f else f + 1

/-- Python "%.3f" % q. -/
def fmt3 (q : ℚ) : PyStr :=
  let sgn : PyStr := if q < 0 then ['-'] else []
  let n := rhe (|q| * 1000)
  sgn ++ decStr (n.toNat / 1000) ++ ['.'] ++ padZeros (decStr (n.toNat % 1000)) 3

/-! ## Python values (JSON scalars and strings reaching the handlers) -/

/-- Python values flowing through the handlers: CSV cells are strings, JSON
match values may be null, booleans, ints, floats or strings (composite match
values never reach the modelled claims and are kept outside the scope). -/
inductive Value where
  | vnull
  | vbool (b : Bool)
  | vint (n : Int)
  | vfloat (q : ℚ)
  | vstr (s : PyStr)
deriving DecidableEq

open Value

/-- Python == on the modelled values (numeric cross-type equality, bool as
0/1, everything else by type and content). -/
def pyEq : Value → Value → Bool
  | vnull, vnull => true
  | vbool a, vbool b => a == b
  | vbool a, vint n => ((if a then 1 else 0 : Int) == n)
  | vbool a, vfloat q => ((if a then 1 else 0 : ℚ) == q)
  | vint n, vbool a => ((if a then 1 else 0 : Int) == n)
  | vint n, vint m => n == m
  | vint n, vfloat q => ((n : ℚ) == q)
  | vfloat q, vbool a => ((if a then 1 else 0 : ℚ) == q)
  | vfloat q, vint n => ((n : ℚ) == q)
  | vfloat p, vfloat q => p == q
  | vstr s, vstr t => s == t
  | _, _ => false

/-- Python str() of a value. -/
def pyStrOf : Value → PyStr
  | vnull => "None".data
  | vbool true => "True".data
  | vbool false => "False".data
  | vint n => intStr n
  | vfloat q => pyFloatStr q
  | vstr s => s

/-- Lookup in a Python dict modelled as an association list, comparing keys
with Python ==. -/
def clookup : List (Value × Value) → Value → Option Value
  | [], _ => none
  | (k, v) :: rest, key => if pyEq key k then some v else clookup rest key

/-- Lookup in a string-keyed Python dict (EmailField.domains,
IPField.networks). -/
def slookup : List (PyStr × PyStr) → PyStr → Option PyStr
  | [], _ => none
  | (k, v) :: rest, key => if key = k then some v else slookup rest key

/-! ## IPv4 parsing and printing (ipaddress.IPv4Address semantics) -/

/-- One dotted-quad octet as accepted by ipaddress: 1–3 ASCII digits, no
leading zero on multi-digit octets, value at most 255. -/
def parseOctet (s : PyStr) : Option Nat :=
  if s ≠ [] ∧ s.all Char.isDigit ∧ s.length ≤ 3 ∧ ¬(s.length > 1 ∧ s.headD '0' = '0') then
    let v := digitsVal s
    if v ≤ 255 then some v else none
  else none

/-- An IPv4 address as a quad of octet values. -/
structure Quad where
  o1 : Nat
  o2 : Nat
  o3 : Nat
  o4 : Nat
deriving DecidableEq

/-- ipaddress.IPv4Address(s): exactly four valid octets. -/
def ipv4Parse (s : PyStr) : Option Quad :=
  match pySplit s '.' with
  | [a, b, c, d] =>
      match parseOctet a, parseOctet b, parseOctet c, parseOctet d with
      | some x, some y, some z, some w => some ⟨x, y, z, w⟩
      | _, _, _, _ => none
  | _ => none

/-- str(IPv4Address): canonical dotted quad. -/
def ipv4Str (q : Quad) : PyStr :=
  decStr q.o1 ++ '.' :: (decStr q.o2 ++ '.' :: (decStr q.o3 ++ '.' :: decStr q.o4))

/-- 32-bit integer value of a quad. -/
def ipv4ToInt (q : Quad) : Nat :=
  ((q.o1 * 256 + q.o2) * 256 + q.o3) * 256 + q.o4

/-- Quad of a 32-bit integer. -/
def ipv4FromInt (n : Nat) : Quad :=
  ⟨n / 16777216 % 256, n / 65536 % 256, n / 256 % 256, n % 256⟩

/-- Network address of a quad under a prefix length: host bits zeroed. -/
def mask4 (q : Quad) (p : Nat) : Quad :=
  ipv4FromInt (ipv4ToInt q / 2 ^ (32 - p) * 2 ^ (32 - p))

/-- Prefix-length string as accepted by the network constructors: non-empty
ASCII digits whose value is within the family bound. -/
def parsePfxLen (s : PyStr) (bound : Nat) : Option Nat :=
  if s ≠ [] ∧ s.all Char.isDigit then
    let v := digitsVal s
    if v ≤ bound then some v else none
  else none

/-- str(ipaddress.IPv4Network(addr ++ "/" ++ mask, strict=False)); none when
the constructor raises.  The printed address is the network address (host
bits zeroed) and the printed prefix length is canonical. -/
def ipv4NetworkStr (addr mask : PyStr) : Option PyStr :=
  match ipv4Parse addr, parsePfxLen mask 32 with
  | some q, some p => some (ipv4Str (mask4 q p) ++ ['/'] ++ decStr p)
  | _, _ => none

/-! ## IPv6 parsing, explosion and compression (ipaddress.IPv6Address) -/

/-- Hex digit value. -/
def hexVal (c : Char) : Option Nat :=
  if c.isDigit then some (c.toNat - 48)
  else if 'a' ≤ c ∧ c ≤ 'f' then some (c.toNat - 87)
  else if 'A' ≤ c ∧ c ≤ 'F' then some (c.toNat - 70)
  else none

/-- ipaddress._parse_hextet: 1–4 hex digits. -/
def parseHextet (s : PyStr) : Option Nat :=
  if s ≠ [] ∧ s.length ≤ 4 ∧ s.all (fun c => (hexVal c).isSome) then
    some (s.foldl (fun acc c => acc * 16 + (hexVal c).getD 0) 0)
  else none

/-- Fold a list of hextet strings into a shifted accumulator, none when one of
them is invalid. -/
def foldHextets (parts : List PyStr) (acc : Nat) : Option Nat :=
  match parts with
  | [] => some acc
  | p :: rest =>
      match parseHextet p with
      | none => none
      | some v => foldHextets rest (acc * 65536 + v)

/-- Lowercase hex digits of n (Python "%x"). -/
def hexStr (n : Nat) : PyStr :=
  (Nat.toDigits 16 n).map Char.toLower

/-- Interior empty-part positions of a ':'-split list (candidate "::"). -/
def interiorEmpties (parts : List PyStr) : List Nat :=
  (List.range parts.length).filter
    (fun i => 0 < i ∧ i + 1 < parts.length ∧ parts.getD i ['x'] = [])

/-- ipaddress._ip_int_from_string for IPv6: the 128-bit integer value, none on
any parse error.  Follows the CPython algorithm: split on ':', expand an
embedded dotted-quad tail, locate at most one interior '::', check the
leading/trailing colon constraints, then fold the high and low hextets around
the zero-filled gap. -/
def ipv6ParseInt (s : PyStr) : Option Nat :=
  let parts0 := pySplit s ':'
  if parts0.length < 3 then none
  else
    let lastPart := parts0.getLastD []
    let expanded : Option (List PyStr) :=
      if lastPart.contains '.' then
        match ipv4Parse lastPart with
        | none => none
        | some q =>
            some (parts0.dropLast ++ [hexStr (ipv4ToInt q / 65536), hexStr (ipv4ToInt q % 65536)])
      else some parts0
    match expanded with
    | none => none
    | some parts =>
        if parts.length > 9 then none
        else
          match interiorEmpties parts with
          | [] =>
              if parts.length ≠ 8 then none
              else if parts.headD [] = [] then none
              else if parts.getLastD [] = [] then none
              else foldHextets parts 0
          | [i] =>
              let hi0 := i
              let lo0 := parts.length - i - 1
              let hi := if parts.headD ['x'] = [] then hi0 - 1 else hi0
              let lo := if parts.getLastD ['x'] = [] then lo0 - 1 else lo0
              if parts.headD ['x'] = [] ∧ hi ≠ 0 then none
              else if parts.getLastD ['x'] = [] ∧ lo ≠ 0 then none
              else if 8 - (hi + lo) < 1 ∨ 8 < hi + lo then none
              else
                match foldHextets (parts.take hi) 0 with
                | none => none
                | some acc =>
                    foldHextets (parts.drop (parts.length - lo)) (acc * 65536 ^ (8 - (hi + lo)))
          | _ => none

/-- One lowercase hex digit. -/
def nibChar (k : Nat) : Char :=
  if k < 10 then Char.ofNat (48 + k) else Char.ofNat (87 + k)

/-- Four-digit lowercase hex group of a hextet value (Python "%04x" of a value
below 2^16). -/
def hex4 (n : Nat) : PyStr :=
  [nibChar (n / 4096 % 16), nibChar (n / 256 % 16), nibChar (n / 16 % 16), nibChar (n % 16)]

/-- The eight 16-bit groups of a 128-bit value, high to low. -/
def v6Groups (m : Nat) : List Nat :=
  [m / 65536 ^ 7 % 65536, m / 65536 ^ 6 % 65536, m / 65536 ^ 5 % 65536,
   m / 65536 ^ 4 % 65536, m / 65536 ^ 3 % 65536, m / 65536 ^ 2 % 65536,
   m / 65536 % 65536, m % 65536]

/-- IPv6Address.exploded: eight zero-padded lowercase hex groups joined by
':'. -/
def ipv6Exploded (m : Nat) : PyStr :=
  hex4 (m / 65536 ^ 7) ++ ':' :: (hex4 (m / 65536 ^ 6) ++ ':' ::
  (hex4 (m / 65536 ^ 5) ++ ':' :: (hex4 (m / 65536 ^ 4) ++ ':' ::
  (hex4 (m / 65536 ^ 3) ++ ':' :: (hex4 (m / 65536 ^ 2) ++ ':' ::
  (hex4 (m / 65536) ++ ':' :: hex4 m))))))

/-- Longest run of zero groups (leftmost on ties, runs of length ≥ 2), as
located by ipaddress._compress_hextets; returns (start, length) or none. -/
def bestZeroRun (gs : List Nat) : Option (Nat × Nat) :=
  let runs := (List.range gs.length).map
    (fun i => (i, ((gs.drop i).takeWhile (fun g => g = 0)).length))
  runs.foldl
    (fun best r =>
      match best with
      | none => if r.2 ≥ 2 then some r else none
      | some b => if r.2 > b.2 then some r else some b)
    none

/-- str(IPv6Address): compressed form — each group in shortest hex, the best
zero run replaced by '::'. -/
def ipv6Compressed (m : Nat) : PyStr :=
  let gs := v6Groups m
  match bestZeroRun gs with
  | none => List.intercalate [':'] (gs.map hexStr)
  | some (i, len) =>
      let hi := (gs.take i).map hexStr
      let lo := (gs.drop (i + len)).map hexStr
      List.intercalate [':'] hi ++ [':', ':'] ++ List.intercalate [':'] lo

/-- str(ipaddress.IPv6Network(addr ++ "/" ++ mask, strict=False)); none when
the constructor raises. -/
def ipv6NetworkStr (addr mask : PyStr) : Option PyStr :=
  match ipv6ParseInt addr, parsePfxLen mask 128 with
  | some m, some p =>
      some (ipv6Compressed (m / 2 ^ (128 - p) * 2 ^ (128 - p)) ++ ['/'] ++ decStr p)
  | _, _ => none

/-! ## Handler framework: types, state, generator oracle -/

/-- The six handler variants of the source. -/
inductive HType where
  | hname
  | hemail
  | hid
  | hhost
  | hip
  | hcoord
deriving DecidableEq

/-- Recorded representation kind of CoordField.clean (self.type). -/
inductive CKind where
  | kstr
  | kfloat
deriving DecidableEq

/-- A configured field handler: variant, original field spec, CSV column name
(the part of the spec before the first '.'), and the compiled sub-path, as an
opaque id into the external path-expression engine (none = plain column). -/
structure Handler where
  htype : HType
  fieldSpec : PyStr
  hname : PyStr
  path : Option Nat
deriving DecidableEq

/-- Non-fatal warnings emitted by the core (print is the external boundary;
each constructor records the message payload and, where the source passes it,
the field spec). -/
inductive Warn where
  | parseIP (data : PyStr) (field : PyStr)
  | parseCoord (data : PyStr) (field : PyStr)
  | parseJSON (cell : PyStr) (field : PyStr)
  | headersNotFound (names : List PyStr)
deriving DecidableEq

/-- The mutable run state: Field.cache (a single dict on the base class,
shared by every handler instance of every variant), EmailField.domains,
IPField.networks, the CoordField representation-kind slot (written by every
CoordField.clean before any read, hence one slot is faithful for sequential
runs), the oracle call counter, and the chronological warning log. -/
structure St where
  cache : List (Value × Value)
  domains : List (PyStr × PyStr)
  networks : List (PyStr × PyStr)
  ctype : CKind
  tick : Nat
  warns : List Warn
deriving DecidableEq

/-- The external collaborators as a deterministic oracle: each faker call and
random draw consumes one tick of the counter; the JSON codec and path engine
work on opaque document ids. -/
structure Gen where
  gname : Nat → PyStr
  guuid : Nat → PyStr
  ghostname : Nat → Nat → PyStr
  gdomainName : Nat → Nat → PyStr
  gemail : PyStr → Nat → PyStr
  gipv4 : Nat → PyStr
  gipv6 : Nat → PyStr
  grand : Nat → Nat
  jloads : PyStr → Option Nat
  jdumps : Nat → PyStr
  pfind : Nat → Nat → List (Nat × Value)
  pupdate : Nat → Nat → Value → Nat

/-- Initial empty run state. -/
def St.empty : St := ⟨[], [], [], CKind.kstr, 0, []⟩

/-- Append a warning to the log. -/
def pushWarn (st : St) (w : Warn) : St :=
  { st with warns := st.warns ++ [w] }

/-! ## clean: per-variant normalization -/

/-- IPField.clean: dotted-quad input drops a trailing ":port"; otherwise drop
"%zone", drop everything from ']' and strip a leading '['. -/
def ipClean (s : PyStr) : PyStr :=
  if s.count '.' = 3 then (pySplit s ':').headD []
  else
    let s1 := (pySplit s '%').headD []
    let s2 := (pySplit s1 ']').headD []
    if s2.headD ' ' = '[' then s2.tail else s2

/-- Value part of clean for each variant; none models a raised exception
(IPField.clean calls .count on its argument, so non-strings raise).  Name, ID
and Host inherit the identity clean of the base class; Email stringifies and
lowercases; Coord stringifies floats. -/
def cleanV : HType → Value → Option Value
  | HType.hname, v => some v
  | HType.hid, v => some v
  | HType.hhost, v => some v
  | HType.hemail, v => some (vstr (pyLower (pyStrOf v)))
  | HType.hip, vstr s => some (vstr (ipClean s))
  | HType.hip, _ => none
  | HType.hcoord, vfloat q => some (vstr (pyFloatStr q))
  | HType.hcoord, v => some v

/-- Representation kind recorded by CoordField.clean. -/
def coordKind : Value → CKind
  | vfloat _ => CKind.kfloat
  | _ => CKind.kstr

/-- State effect of clean: only CoordField.clean writes (self.type). -/
def cleanSt (t : HType) (v : Value) (st : St) : St :=
  match t with
  | HType.hcoord => { st with ctype := coordKind v }
  | _ => st

/-! ## produce (anonymize_data) per variant -/

/-- IPField.gen_new_ip: split the address at the given occurrence of the
delimiter into network key and host suffix, reuse the cached substitute
network or truncate a freshly generated address of the family, and reattach
the host suffix verbatim.  The fake_ip argument mirrors the lambda at the
call sites; none from it models a raised exception. -/
def gen_new_ip (ip : PyStr) (delim : Char) (occ : Nat) (fake_ip : Nat → Option PyStr)
    (st : St) : Option (PyStr × St) :=
  let pos := find_nth ip delim occ
  let net := pySliceTo ip pos
  let host := pySliceFrom ip pos
  match slookup st.networks net with
  | some nn => some (nn ++ host, st)
  | none =>
      match fake_ip st.tick with
      | none => none
      | some nip =>
          let nn := pySliceTo nip (find_nth nip delim occ)
          some (nn ++ host, { st with networks := (net, nn) :: st.networks, tick := st.tick + 1 })

/-- IPField.anonymize_data on a (cleaned) string: family by '.' count, CIDR
split on '/', in-range integer check of the mask, concrete address parse with
warn-and-return fallback, subnet-preserving substitution, and non-strict
network re-normalization for true CIDRs. -/
def ipAnonData (g : Gen) (fieldSpec : PyStr) (s : PyStr) (st : St) : Option (Value × St) :=
  if s.count '.' = 3 then
    let hasSlash := s.contains '/'
    let host0 := if hasSlash then (pySplit s '/').headD [] else s
    let netmask := if hasSlash then (pySplit s '/').getD 1 [] else []
    let isCidr := hasSlash &&
      (match pyInt netmask with
       | some v => decide (0 ≤ v ∧ v ≤ 32)
       | none => false)
    match ipv4Parse host0 with
    | none => some (vstr host0, pushWarn st (Warn.parseIP host0 fieldSpec))
    | some q =>
        match gen_new_ip (ipv4Str q) '.' 3 (fun t => some (g.gipv4 t)) st with
        | none => none
        | some (nip, st') =>
            if isCidr then
              match ipv4NetworkStr nip netmask with
              | none => none
              | some out => some (vstr out, st')
            else some (vstr nip, st')
  else
    let hasSlash := s.contains '/'
    let host0 := if hasSlash then (pySplit s '/').headD [] else s
    let netmask := if hasSlash then (pySplit s '/').getD 1 [] else []
    let isCidr := hasSlash &&
      (match pyInt netmask with
       | some v => decide (0 ≤ v ∧ v ≤ 128)
       | none => false)
    match ipv6ParseInt host0 with
    | none => some (vstr host0, pushWarn st (Warn.parseIP host0 fieldSpec))
    | some m =>
        match gen_new_ip (ipv6Exploded m) ':' 4
            (fun t => (ipv6ParseInt (g.gipv6 t)).map ipv6Exploded) st with
        | none => none
        | some (nip, st') =>
            if isCidr then
              match ipv6NetworkStr nip netmask with
              | none => none
              | some out => some (vstr out, st')
            else some (vstr nip, st')

/-- Numeric value of float() applied to a cleaned coordinate value: strings
parse, bools and ints coerce, null raises inside the fallback too (modelled
by none at the caller). -/
def floatOfValue : Value → Option ℚ
  | vstr s => pyFloatParse s
  | vint n => some (n : ℚ)
  | vbool b => some (if b then 1 else 0)
  | vfloat q => some q
  | vnull => none

/-- anonymize_data of each variant on the cleaned value; none models a raised
exception.  Email and IP apply to strings (clean produces strings for them);
Host raises on non-strings (.count on the value). -/
def anonData (g : Gen) (h : Handler) (d : Value) (st : St) : Option (Value × St) :=
  match h.htype with
  | HType.hname => some (vstr (g.gname st.tick), { st with tick := st.tick + 1 })
  | HType.hid => some (vstr (g.guuid st.tick), { st with tick := st.tick + 1 })
  | HType.hhost =>
      match d with
      | vstr s =>
          let np := s.count '.' + 1
          if np = 1 then some (vstr (g.ghostname 0 st.tick), { st with tick := st.tick + 1 })
          else some (vstr (g.gdomainName (np - 1) st.tick), { st with tick := st.tick + 1 })
      | _ => none
  | HType.hemail =>
      match d with
      | vstr s =>
          let parts := pySplit s '@'
          if parts.length > 1 then
            let dk := parts.getD 1 []
            match slookup st.domains dk with
            | some dom => some (vstr (g.gemail dom st.tick), { st with tick := st.tick + 1 })
            | none =>
                let dom := g.gdomainName 1 st.tick
                some (vstr (g.gemail dom (st.tick + 1)),
                  { st with domains := (dk, dom) :: st.domains, tick := st.tick + 2 })
          else some (vstr (g.gemail ("company.com").data st.tick), { st with tick := st.tick + 1 })
      | _ => none
  | HType.hip =>
      match d with
      | vstr s => ipAnonData g h.fieldSpec s st
      | _ => none
  | HType.hcoord =>
      match floatOfValue d with
      | none =>
          match d with
          | vstr s => some (d, pushWarn st (Warn.parseCoord s h.fieldSpec))
          | _ => none
      | some q =>
          let val := fmt3 (q + ((g.grand st.tick % 1000 : Int) - 500) * (1 / 1000 : ℚ))
          let st' := { st with tick := st.tick + 1 }
          match st.ctype with
          | CKind.kfloat => some (vfloat ((pyFloatParse val).getD 0), st')
          | CKind.kstr => some (vstr val, st')

/-- Field.anonymize: clean, short-circuit null/empty, consult the shared value
cache, else produce, store and return. -/
def anonymize (g : Gen) (h : Handler) (v : Value) (st : St) : Option (Value × St) :=
  match cleanV h.htype v with
  | none => none
  | some d =>
      let st1 := cleanSt h.htype v st
      if pyEq d vnull || pyEq d (vstr []) then some (d, st1)
      else
        match clookup st1.cache d with
        | some cv => some (cv, st1)
        | none =>
            match anonData g h d st1 with
            | none => none
            | some (val, st2) => some (val, { st2 with cache := (d, val) :: st2.cache })

/-! ## Header matching and row transformation (table mode) -/

/-- Inner step of process_headers for one column: append a handler whose name
matches the column text and drop it from the unused list (list.remove removes
the first occurrence). -/
def headerStep (col : PyStr) (acc : List Handler × List Handler) (h : Handler) :
    List Handler × List Handler :=
  if h.hname = col then
    (acc.1 ++ [h], if h ∈ acc.2 then acc.2.erase h else acc.2)
  else acc

/-- process_headers: bind every configured handler to each column whose header
text equals its name; one warning when some handlers matched nothing. -/
def process_headers (defs : List Handler) (row : List PyStr) :
    List (List Handler) × List Warn :=
  let step := fun (acc : List (List Handler) × List Handler) (col : PyStr) =>
    let inner := defs.foldl (headerStep col) ([], acc.2)
    (acc.1 ++ [inner.1], inner.2)
  let fin := row.foldl step ([], defs)
  (fin.1, if fin.2 ≠ [] then [Warn.headersNotFound (fin.2.map (fun h => h.hname))] else [])

/-- The per-match loop of the JSON-in-cell branch: anonymize each matched
value and write it back through the path engine; an exception aborts the loop
keeping the state mutations made so far (none in the first component). -/
def jsonLoop (g : Gen) (h : Handler) :
    List (Nat × Value) → Nat → St → Option Nat × St
  | [], doc, st => (some doc, st)
  | (mid, v) :: rest, doc, st =>
      match anonymize g h v st with
      | none => (none, st)
      | some (nv, st') => jsonLoop g h rest (g.pupdate mid doc nv) st'

/-- The JSON-in-cell branch of anonymize_row: parse the cell, anonymize every
path match, re-serialize; any exception inside the try is caught and leaves
the cell unchanged with a warning.  A non-string cell makes the except clause
itself raise (string concatenation with the cell), modelled by none. -/
def jsonCellBranch (g : Gen) (h : Handler) (cell : Value) (st : St) :
    Option (Value × St) :=
  match cell with
  | vstr s =>
      match g.jloads s with
      | none => some (cell, pushWarn st (Warn.parseJSON s h.fieldSpec))
      | some doc =>
          match jsonLoop g h (g.pfind (h.path.getD 0) doc) doc st with
          | (some doc', st') => some (vstr (g.jdumps doc'), st')
          | (none, st') => some (cell, pushWarn st' (Warn.parseJSON s h.fieldSpec))
  | _ => none

/-- Apply one bound handler to one cell: handlers carrying a sub-path go
through the JSON branch, plain column handlers substitute the cell value
directly. -/
def applyHandler (g : Gen) (h : Handler) (cell : Value) (st : St) :
    Option (Value × St) :=
  if h.path.isSome then jsonCellBranch g h cell st else anonymize g h cell st

/-- All handlers bound to one column, in configuration order. -/
def cellLoop (g : Gen) (hs : List Handler) (cell : Value) (st : St) :
    Option (Value × St) :=
  hs.foldlM (fun acc h => applyHandler g h acc.1 acc.2) (cell, st)

/-- anonymize_row: for i in range(len(row)), rewrite row[i] through the
handlers bound to column i; a row longer than the header raises IndexError
on handlers[i] (none). -/
def anonymize_row (g : Gen) :
    List (List Handler) → List Value → St → Option (List Value × St)
  | _, [], st => some ([], st)
  | [], _ :: _, _ => none
  | hs :: hss, c :: cs, st =>
      match cellLoop g hs c st with
      | none => none
      | some (c', st') =>
          match anonymize_row g hss cs st' with
          | none => none
          | some (cs', st'') => some (c' :: cs', st'')

/-! ## Statement helpers and concrete instances used by the claim theorems -/

/-- Octet bounds of a well-formed quad. -/
def QOk (q : Quad) : Prop :=
  q.o1 ≤ 255 ∧ q.o2 ≤ 255 ∧ q.o3 ≤ 255 ∧ q.o4 ≤ 255

instance (q : Quad) : Decidable (QOk q) := by unfold QOk; infer_instance

/-- Text of the first three octets of a quad (the /24 network key used by
gen_new_ip). -/
def ipNet3 (q : Quad) : PyStr :=
  decStr q.o1 ++ '.' :: (decStr q.o2 ++ '.' :: decStr q.o3)

/-- Text of the first four exploded groups of a 128-bit address (the /64
network key used by gen_new_ip). -/
def v6Net4 (m : Nat) : PyStr :=
  hex4 (m / 65536 ^ 7) ++ ':' :: (hex4 (m / 65536 ^ 6) ++ ':' ::
  (hex4 (m / 65536 ^ 5) ++ ':' :: hex4 (m / 65536 ^ 4)))

/-- Host suffix of an exploded address from the fourth ':' onward. -/
def v6Host (m : Nat) : PyStr :=
  ':' :: (hex4 (m / 65536 ^ 3) ++ ':' :: (hex4 (m / 65536 ^ 2) ++ ':' ::
  (hex4 (m / 65536) ++ ':' :: hex4 m)))

/-- Handlers of a configuration that matched no header column. -/
def unmatchedHandlers (defs : List Handler) (row : List PyStr) : List Handler :=
  defs.filter (fun h => !row.contains h.hname)

/-- A deterministic concrete generator oracle for the witness runs. -/
def cg : Gen where
  gname := fun _ => ("Fake Person").data
  guuid := fun _ => ("fake-uuid").data
  ghostname := fun _ _ => ("fakehost").data
  gdomainName := fun _ t => ("fake").data ++ decStr t ++ (".org").data
  gemail := fun d t => ('u' :: decStr t) ++ ('@' :: d)
  gipv4 := fun _ => ("200.1.2.3").data
  gipv6 := fun _ => ("2001:db8::1").data
  grand := fun _ => 0
  jloads := fun _ => none
  jdumps := fun _ => []
  pfind := fun _ _ => []
  pupdate := fun _ d _ => d

/-- A generator whose public IPv4 draw lands in the same /24 as the witness
input (faker gives no disjointness guarantee). -/
def cgSame : Gen :=
  { cg with gipv4 := fun _ => ("8.8.8.8").data }

/-- A generator that repeats the same public IPv4 draw (faker gives no
uniqueness guarantee). -/
def cgRepeat : Gen :=
  { cg with gipv4 := fun _ => ("9.9.9.1").data }

/-- Concrete handler instances, one per variant, plus one for a nonexistent
column. -/
def hNm : Handler := ⟨HType.hname, ("person").data, ("person").data, none⟩

def hID : Handler := ⟨HType.hid, ("userid").data, ("userid").data, none⟩

def hEm : Handler := ⟨HType.hemail, ("mail").data, ("mail").data, none⟩

def hIP : Handler := ⟨HType.hip, ("addr").data, ("addr").data, none⟩

def hCo : Handler := ⟨HType.hcoord, ("lat").data, ("lat").data, none⟩

def hSsn : Handler := ⟨HType.hname, ("ssn").data, ("ssn").data, none⟩

/-- State after anonymizing "bob" through the concrete ID handler. -/
def stID1 : St :=
  ⟨[(vstr ("bob").data, vstr ("fake-uuid").data)], [], [], CKind.kstr, 1, []⟩

/-- State after anonymizing "bob" through the concrete Name handler. -/
def stNm1 : St :=
  ⟨[(vstr ("bob").data, vstr ("Fake Person").data)], [], [], CKind.kstr, 1, []⟩

/-- A second configured ID-handler instance (different field spec, same
variant). -/
def hID2 : Handler := ⟨HType.hid, ("uid2").data, ("uid2").data, none⟩

/-- The host portion anonymize_data actually works on: everything before the
first '/' whenever a '/' is present (the split happens even when the mask is
later rejected). -/
def ipHost0 (c : PyStr) : PyStr :=
  if c.contains '/' then (pySplit c '/').headD [] else c

/-- State after anonymizing a null value through the concrete Email handler. -/
def stEmNull : St :=
  ⟨[(vstr ("none").data, vstr ("u0@company.com").data)], [], [], CKind.kstr, 1, []⟩

/-- State after anonymizing the cell "b" through the concrete Name handler. -/
def stNmB : St :=
  ⟨[(vstr ("b").data, vstr ("Fake Person").data)], [], [], CKind.kstr, 1, []⟩

/-- State after the generator draw for the 1.2.3.0/24 network under the
repeating generator. -/
def stRep1 : St :=
  ⟨[], [], [(("1.2.3").data, ("9.9.9").data)], CKind.kstr, 1, []⟩

/-- State after a second, colliding generator draw for the 5.6.7.0/24
network. -/
def stRep2 : St :=
  ⟨[], [], [(("5.6.7").data, ("9.9.9").data), (("1.2.3").data, ("9.9.9").data)],
   CKind.kstr, 2, []⟩

/-- State after substituting the 10.0.0.0/24 network under cg. -/
def stC3a : St :=
  ⟨[], [], [(ipNet3 ⟨10, 0, 0, 5⟩, ipNet3 ⟨200, 1, 2, 3⟩)], CKind.kstr, 1, []⟩

/-- The 128-bit value of 2001:db8::1. -/
def mV6 : Nat := 0x20010db8 * 2 ^ 96 + 1

/-- State after substituting the 192.168.1.0/24 network under cg. -/
def stC4 : St :=
  ⟨[], [], [(("192.168.1").data, ("200.1.2").data)], CKind.kstr, 1, []⟩

/-- State after substituting the 1.2.3.0/24 network under cg. -/
def stC4b : St :=
  ⟨[], [], [(("1.2.3").data, ("200.1.2").data)], CKind.kstr, 1, []⟩

/-- A generator whose domain-name draws repeat (faker gives no uniqueness
guarantee across domains). -/
def cgDom : Gen :=
  { cg with gdomainName := fun _ _ => ("fake.org").data }

/-- State after anonymizing a@x.com under the repeating-domain generator. -/
def stD1 : St :=
  ⟨[(vstr ("a@x.com").data, vstr ("u1@fake.org").data)],
   [(("x.com").data, ("fake.org").data)], [], CKind.kstr, 2, []⟩

/-- State after additionally anonymizing c@y.com under the repeating-domain
generator. -/
def stD2 : St :=
  ⟨[(vstr ("c@y.com").data, vstr ("u3@fake.org").data),
    (vstr ("a@x.com").data, vstr ("u1@fake.org").data)],
   [(("y.com").data, ("fake.org").data), (("x.com").data, ("fake.org").data)],
   [], CKind.kstr, 4, []⟩

/-- State after substituting the 2001:db8::/64 network under cg. -/
def stC3v : St :=
  ⟨[], [], [(v6Net4 mV6, v6Net4 mV6)], CKind.kstr, 1, []⟩

/-- States of the email-domain witness run under cg. -/
def stW1 : St :=
  ⟨[(vstr ("a@x.com").data, vstr ("u1@fake0.org").data)],
   [(("x.com").data, ("fake0.org").data)], [], CKind.kstr, 2, []⟩

def stW2 : St :=
  ⟨[(vstr ("b@x.com").data, vstr ("u2@fake0.org").data),
    (vstr ("a@x.com").data, vstr ("u1@fake0.org").data)],
   [(("x.com").data, ("fake0.org").data)], [], CKind.kstr, 3, []⟩

def stW3 : St :=
  ⟨[(vstr ("c@y.com").data, vstr ("u4@fake3.org").data),
    (vstr ("b@x.com").data, vstr ("u2@fake0.org").data),
    (vstr ("a@x.com").data, vstr ("u1@fake0.org").data)],
   [(("y.com").data, ("fake3.org").data), (("x.com").data, ("fake0.org").data)],
   [], CKind.kstr, 5, []⟩

def stW0 : St :=
  ⟨[(vstr ("nodomain").data, vstr ("u0@company.com").data)], [], [], CKind.kstr, 1, []⟩

/-- The jitter CoordField.anonymize_data adds for the produce call at tick t:
randrange(1000) shifted to [-500, 499] and scaled by 0.001. -/
def coordOffset (g : Gen) (t : Nat) : ℚ :=
  ((g.grand t % 1000 : Int) - 500) * (1 / 1000 : ℚ)

/-- float("%.3f" % x): the exact rational value of the 3-decimal rounding of
x (the sign times the half-even-rounded scaled magnitude over 1000). -/
def val3 (x : ℚ) : ℚ :=
  (if x < 0 then (-1 : ℚ) else 1) * ((rhe (|x| * 1000)).toNat : ℚ) / 1000

/-- State after anonymizing the float 40.73 through the concrete Coordinate
handler under cg (draw 0, hence offset -0.5). -/
def stCo1 : St :=
  ⟨[(vstr ("40.73").data, vfloat (4023 / 100))], [], [], CKind.kfloat, 1, []⟩

/-- The same cache after the later textual call "40.73": only the recorded
representation kind differs. -/
def stCo2 : St :=
  ⟨[(vstr ("40.73").data, vfloat (4023 / 100))], [], [], CKind.kstr, 1, []⟩

/-! ## Basic lemmas on the value cache and anonymize -/

theorem pyEq_refl (v : Value) : pyEq v v = true := by
  cases v <;> simp [pyEq]

theorem clookup_cons_self (c : List (Value × Value)) (k v : Value) :
    clookup ((k, v) :: c) k = some v := by
  simp [clookup, pyEq_refl]

theorem cleanSt_cache (t : HType) (v : Value) (st : St) :
    (cleanSt t v st).cache = st.cache := by
  cases t <;> rfl

theorem cleanSt_warns (t : HType) (v : Value) (st : St) :
    (cleanSt t v st).warns = st.warns := by
  cases t <;> rfl

theorem cleanSt_tick (t : HType) (v : Value) (st : St) :
    (cleanSt t v st).tick = st.tick := by
  cases t <;> rfl

/-- Shape of a successful anonymize call: either the null/empty short-circuit
fired, or the post-state cache maps the cleaned value to the output. -/
theorem anonymize_post {g : Gen} {h : Handler} {v : Value} {st : St} {out : Value}
    {st' : St} (H : anonymize g h v st = some (out, st')) :
    ∃ d, cleanV h.htype v = some d ∧
      (((pyEq d vnull || pyEq d (vstr [])) = true ∧ out = d ∧ st' = cleanSt h.htype v st) ∨
       ((pyEq d vnull || pyEq d (vstr [])) = false ∧ clookup st'.cache d = some out)) := by
  unfold anonymize at H
  cases hc : cleanV h.htype v with
  | none => rw [hc] at H; exact absurd H (by simp)
  | some d =>
      rw [hc] at H
      refine ⟨d, rfl, ?_⟩
      by_cases hsc : (pyEq d vnull || pyEq d (vstr [])) = true
      · left
        simp only [hsc, if_true] at H
        exact ⟨hsc, by injection H with H'; exact (Prod.mk.injEq _ _ _ _ ▸ H').1.symm ▸ rfl,
          by injection H with H'; exact ((Prod.mk.injEq _ _ _ _ ▸ H').2).symm⟩
      · right
        rw [Bool.not_eq_true] at hsc
        simp only [hsc, Bool.false_eq_true, if_false] at H
        refine ⟨hsc, ?_⟩
        cases hl : clookup (cleanSt h.htype v st).cache d with
        | some cv =>
            rw [hl] at H
            injection H with H'
            obtain ⟨h1, h2⟩ := Prod.mk.injEq _ _ _ _ ▸ H'
            rw [← h2, ← h1]; exact hl
        | none =>
            rw [hl] at H
            cases ha : anonData g h d (cleanSt h.htype v st) with
            | none => rw [ha] at H; exact absurd H (by simp)
            | some r =>
                rw [ha] at H
                injection H with H'
                obtain ⟨h1, h2⟩ := Prod.mk.injEq _ _ _ _ ▸ H'
                rw [← h2, ← h1]
                exact clookup_cons_self _ _ _

/-- C6: a repeated anonymize of the same value through any handler of the
same variant returns the first call's output and changes nothing but the
coordinate-kind slot. -/
theorem anonymize_repeat (g : Gen) (h1 h2 : Handler) (v out : Value) (st st' : St)
    (hty : h1.htype = h2.htype) (H : anonymize g h1 v st = some (out, st')) :
    anonymize g h2 v st' = some (out, cleanSt h2.htype v st') := by
  obtain ⟨d, hc, hpost⟩ := anonymize_post H
  rw [hty] at hc
  rcases hpost with ⟨hsc, hout, _⟩ | ⟨hsc, hl⟩
  · unfold anonymize
    rw [hc]
    simp [hsc, hout]
  · unfold anonymize
    rw [hc]
    have hl' : clookup (cleanSt h2.htype v st').cache d = some out := by
      rw [cleanSt_cache]; exact hl
    simp [hsc, hl']

/-- C6: for every value v and handler type T, anonymizing v twice in one run
through instances of T returns the same substitute both times, regardless of
which configured field instance triggered either call: the second call hits
the shared cache entry (or the same null/empty short-circuit) left by the
first and returns the first call's output. -/
theorem C6_idempotent_consistency (g : Gen) (h1 h2 : Handler) (v out : Value)
    (st st' : St) (hty : h1.htype = h2.htype)
    (H : anonymize g h1 v st = some (out, st')) :
    anonymize g h2 v st' = some (out, cleanSt h2.htype v st') :=
  anonymize_repeat g h1 h2 v out st st' hty H

/-- C6 witness: anonymizing "bob" through a second ID-handler instance right
after the first returns the same substitute. -/
theorem C6_witness :
    anonymize cg hID2 (vstr ("bob").data) stID1 =
      some (vstr ("fake-uuid").data, cleanSt hID2.htype (vstr ("bob").data) stID1) :=
  C6_idempotent_consistency cg hID hID2 (vstr ("bob").data) (vstr ("fake-uuid").data)
    St.empty stID1 rfl (by decide)

/-- C1 counterexample: the value cache is not scoped per handler type — after
the Name handler caches "bob", the ID handler's anonymize returns the cached
fake NAME instead of the fresh uuid it returns on an untouched state, so an
entry cached by one type does determine the output of another type. -/
theorem C1_counterexample :
    anonymize cg hNm (vstr ("bob").data) St.empty =
      some (vstr ("Fake Person").data, stNm1) ∧
    anonymize cg hID (vstr ("bob").data) stNm1 =
      some (vstr ("Fake Person").data, stNm1) ∧
    anonymize cg hID (vstr ("bob").data) St.empty =
      some (vstr ("fake-uuid").data, stID1) ∧
    (("Fake Person").data : PyStr) ≠ ("fake-uuid").data :=
  ⟨by decide, by decide, by decide, by decide⟩

/-- C1 (amended): the value cache consulted by anonymize is a single map on
the Field base class shared by all six handler types; whenever two handlers
(of any two variants) normalize a value to the same non-null, non-empty
cleaned key, the second anonymize returns exactly the value the first call
left in the shared cache. -/
theorem C1_shared_cache (g : Gen) (h1 h2 : Handler) (v out d : Value) (st st' : St)
    (hc1 : cleanV h1.htype v = some d) (hc2 : cleanV h2.htype v = some d)
    (hne : (pyEq d vnull || pyEq d (vstr [])) = false)
    (H : anonymize g h1 v st = some (out, st')) :
    anonymize g h2 v st' = some (out, cleanSt h2.htype v st') := by
  obtain ⟨d', hc', hpost⟩ := anonymize_post H
  rw [hc1] at hc'
  injection hc' with hd
  subst hd
  rcases hpost with ⟨hsc, _, _⟩ | ⟨_, hl⟩
  · rw [hsc] at hne; exact absurd hne (by simp)
  · unfold anonymize
    rw [hc2]
    have hl' : clookup (cleanSt h2.htype v st').cache d = some out := by
      rw [cleanSt_cache]; exact hl
    simp [hne, hl']

/-- C1 witness: after the Name handler caches "bob", the ID handler returns
the Name handler's cached substitute. -/
theorem C1_witness :
    anonymize cg hID (vstr ("bob").data) stNm1 =
      some (vstr ("Fake Person").data, cleanSt hID.htype (vstr ("bob").data) stNm1) :=
  C1_shared_cache cg hNm hID (vstr ("bob").data) (vstr ("Fake Person").data)
    (vstr ("bob").data) St.empty stNm1 rfl rfl (by decide) (by decide)

/-- C5 counterexample: a null value is not returned unchanged by every
handler type — the Email handler stringifies it to "none" and substitutes
(and caches) a fake email for it, and the IP handler raises on it. -/
theorem C5_counterexample :
    anonymize cg hEm vnull St.empty = some (vstr ("u0@company.com").data, stEmNull) ∧
    vstr ("u0@company.com").data ≠ vnull ∧
    anonymize cg hIP vnull St.empty = none :=
  ⟨by decide, by decide, by decide⟩

/-- C5 (amended): anonymize on an empty-string input short-circuits after
clean for every handler type, returning it unchanged with no cache entry, no
warning and no generator call; a null input is returned unchanged the same
way by the Name, ID, Host and Coordinate handlers, while the Email handler
normalizes null to the string "none" and substitutes a fake email for it, and
the IP handler raises. -/
theorem C5_null_empty (g : Gen) (t : HType) (fs nm : PyStr) (p : Option Nat) (st : St) :
    (anonymize g ⟨t, fs, nm, p⟩ (vstr []) st = some (vstr [], cleanSt t (vstr []) st)) ∧
    (cleanSt t (vstr []) st).cache = st.cache ∧
    (cleanSt t (vstr []) st).tick = st.tick ∧
    (cleanSt t (vstr []) st).warns = st.warns ∧
    (t = HType.hname ∨ t = HType.hid ∨ t = HType.hhost ∨ t = HType.hcoord →
      anonymize g ⟨t, fs, nm, p⟩ vnull st = some (vnull, cleanSt t vnull st)) ∧
    (anonymize g ⟨HType.hip, fs, nm, p⟩ vnull st = none) ∧
    (clookup st.cache (vstr ("none").data) = none →
      anonymize g ⟨HType.hemail, fs, nm, p⟩ vnull st =
        some (vstr (g.gemail ("company.com").data st.tick),
          ⟨(vstr ("none").data, vstr (g.gemail ("company.com").data st.tick)) :: st.cache,
           st.domains, st.networks, st.ctype, st.tick + 1, st.warns⟩)) := by
  refine ⟨?_, cleanSt_cache t _ st, cleanSt_tick t _ st, cleanSt_warns t _ st, ?_, rfl, ?_⟩
  · cases t <;> rfl
  · rintro (rfl | rfl | rfl | rfl) <;> rfl
  · intro hfresh
    have e1 : cleanV HType.hemail vnull = some (vstr ("none").data) := by decide
    have e2 : (pyEq (vstr ("none").data) vnull || pyEq (vstr ("none").data) (vstr [])) = false := by
      decide
    have e3 : cleanSt HType.hemail vnull st = st := rfl
    unfold anonymize
    rw [e1]
    simp only [e2, Bool.false_eq_true, if_false, e3, hfresh]
    rfl

/-- C5 witness: empty string and null through the Name handler come back
unchanged, and null through the Email handler becomes a fake email. -/
theorem C5_witness :
    anonymize cg ⟨HType.hname, ("person").data, ("person").data, none⟩ (vstr []) St.empty =
      some (vstr [], cleanSt HType.hname (vstr []) St.empty) ∧
    anonymize cg ⟨HType.hname, ("person").data, ("person").data, none⟩ vnull St.empty =
      some (vnull, cleanSt HType.hname vnull St.empty) ∧
    anonymize cg ⟨HType.hemail, ("mail").data, ("mail").data, none⟩ vnull St.empty =
      some (vstr (cg.gemail ("company.com").data 0),
        ⟨[(vstr ("none").data, vstr (cg.gemail ("company.com").data 0))],
         [], [], CKind.kstr, 1, []⟩) :=
  ⟨(C5_null_empty cg HType.hname (("person").data) (("person").data) none St.empty).1,
   (C5_null_empty cg HType.hname (("person").data) (("person").data) none St.empty).2.2.2.2.1
     (Or.inl rfl),
   (C5_null_empty cg HType.hemail (("mail").data) (("mail").data) none St.empty).2.2.2.2.2.2 rfl⟩

/-- C2 counterexample: an unparseable IPv4 input carrying a CIDR suffix is
not returned unchanged — the handler returns only the pre-'/' host portion,
dropping the mask (and clean has already dropped port decoration). -/
theorem C2_counterexample :
    anonymize cg hIP (vstr ("999.0.0.1/24").data) St.empty =
      some (vstr ("999.0.0.1").data,
        ⟨[(vstr ("999.0.0.1/24").data, vstr ("999.0.0.1").data)], [], [], CKind.kstr, 0,
         [Warn.parseIP ("999.0.0.1").data ("addr").data]⟩) ∧
    (("999.0.0.1").data : PyStr) ≠ ("999.0.0.1/24").data ∧
    anonymize cg hIP (vstr ("1.2.3.999:80").data) St.empty =
      some (vstr ("1.2.3.999").data,
        ⟨[(vstr ("1.2.3.999").data, vstr ("1.2.3.999").data)], [], [], CKind.kstr, 0,
         [Warn.parseIP ("1.2.3.999").data ("addr").data]⟩) ∧
    (("1.2.3.999").data : PyStr) ≠ ("1.2.3.999:80").data :=
  ⟨by decide, by decide, by decide, by decide⟩

/-- C2 (amended): on every string whose cleaned form is non-empty and not yet
cached and whose pre-'/' host portion fails to parse as a concrete address of
the family selected by the '.' count, the IP handler's anonymize never
raises: it returns the pre-'/' host portion of the cleaned input unchanged
(any mask suffix and any stripped port/zone decoration are not restored),
emits exactly one warning carrying the field spec, caches the result, and
touches nothing else in the state. -/
theorem C2_parse_failure (g : Gen) (h : Handler) (s : PyStr) (st : St)
    (hty : h.htype = HType.hip)
    (hne : ipClean s ≠ [])
    (hfresh : clookup st.cache (vstr (ipClean s)) = none)
    (hfail : if (ipClean s).count '.' = 3
             then ipv4Parse (ipHost0 (ipClean s)) = none
             else ipv6ParseInt (ipHost0 (ipClean s)) = none) :
    anonymize g h (vstr s) st =
      some (vstr (ipHost0 (ipClean s)),
        ⟨(vstr (ipClean s), vstr (ipHost0 (ipClean s))) :: st.cache,
         st.domains, st.networks, st.ctype, st.tick,
         st.warns ++ [Warn.parseIP (ipHost0 (ipClean s)) h.fieldSpec]⟩) := by
  have hcv : cleanV h.htype (vstr s) = some (vstr (ipClean s)) := by rw [hty]; rfl
  have hcs : cleanSt h.htype (vstr s) st = st := by rw [hty]; rfl
  have hbe : (ipClean s == ([] : PyStr)) = false := beq_eq_false_iff_ne.mpr hne
  have hsc : (pyEq (vstr (ipClean s)) vnull || pyEq (vstr (ipClean s)) (vstr [])) = false := by
    show (false || (ipClean s == ([] : PyStr))) = false
    rw [hbe]
    rfl
  have had : anonData g h (vstr (ipClean s)) st =
      some (vstr (ipHost0 (ipClean s)),
        pushWarn st (Warn.parseIP (ipHost0 (ipClean s)) h.fieldSpec)) := by
    have hdis : anonData g h (vstr (ipClean s)) st = ipAnonData g h.fieldSpec (ipClean s) st := by
      unfold anonData; rw [hty]
    rw [hdis]
    unfold ipAnonData
    by_cases h3 : (ipClean s).count '.' = 3
    · have hf4 : ipv4Parse (if (ipClean s).contains '/'
          then (pySplit (ipClean s) '/').headD [] else ipClean s) = none := by
        have hx := hfail
        rw [if_pos h3] at hx
        simpa [ipHost0] using hx
      rw [if_pos h3]
      simp only [hf4]
      simp [ipHost0]
    · have hf6 : ipv6ParseInt (if (ipClean s).contains '/'
          then (pySplit (ipClean s) '/').headD [] else ipClean s) = none := by
        have hx := hfail
        rw [if_neg h3] at hx
        simpa [ipHost0] using hx
      rw [if_neg h3]
      simp only [hf6]
      simp [ipHost0]
  unfold anonymize
  rw [hcv]
  simp only [hcs, hsc, Bool.false_eq_true, if_false, hfresh, had, pushWarn]

/-- C2 witness: "not-an-ip" comes back unchanged with exactly one warning
carrying the field spec. -/
theorem C2_witness :
    anonymize cg hIP (vstr ("not-an-ip").data) St.empty =
      some (vstr (ipHost0 (ipClean ("not-an-ip").data)),
        ⟨[(vstr (ipClean ("not-an-ip").data), vstr (ipHost0 (ipClean ("not-an-ip").data)))],
         [], [], CKind.kstr, 0,
         [Warn.parseIP (ipHost0 (ipClean ("not-an-ip").data)) ("addr").data]⟩) :=
  C2_parse_failure cg hIP (("not-an-ip").data) St.empty rfl (by decide) rfl (by decide)

/-! ## Lemmas on header matching and row transformation -/

theorem headerInner_fst (defs : List Handler) (col : PyStr) (l0 u : List Handler) :
    (defs.foldl (headerStep col) (l0, u)).1 =
      l0 ++ defs.filter (fun h => decide (h.hname = col)) := by
  induction defs generalizing l0 u with
  | nil => simp
  | cons d ds ih =>
      by_cases hc : d.hname = col
      · simp only [List.foldl_cons, headerStep, hc, if_pos, List.filter_cons]
        rw [ih]
        simp [hc]
      · simp only [List.foldl_cons, headerStep, hc, if_false, List.filter_cons]
        rw [ih]
        simp [hc]

theorem headerInner_snd (defs : List Handler) (col : PyStr) (l0 u : List Handler)
    (hu : u.Nodup) :
    (defs.foldl (headerStep col) (l0, u)).2 =
      u.filter (fun h => !(decide (h ∈ defs) && decide (h.hname = col))) := by
  induction defs generalizing l0 u with
  | nil => simp
  | cons d ds ih =>
      by_cases hc : d.hname = col
      · have herase : (if d ∈ u then u.erase d else u) = u.filter (fun h => h != d) := by
          by_cases hm : d ∈ u
          · rw [if_pos hm, List.Nodup.erase_eq_filter hu]
          · rw [if_neg hm, Eq.comm, List.filter_eq_self]
            intro a ha
            simp only [bne_iff_ne, ne_eq]
            intro had
            exact hm (had ▸ ha)
        simp only [List.foldl_cons, headerStep, hc, if_pos]
        rw [herase, ih _ _ (hu.filter _), List.filter_filter]
        apply List.filter_congr
        intro x hx
        by_cases hxd : x = d
        · subst hxd
          simp [hc]
        · simp [hxd, hc]
      · simp only [List.foldl_cons, headerStep, hc, if_false]
        rw [ih _ _ hu]
        apply List.filter_congr
        intro x hx
        by_cases hxd : x = d
        · subst hxd
          simp [hc]
        · simp [hxd]

theorem ph_fold (row : List PyStr) (defs : List Handler) (hnd : defs.Nodup)
    (L0 : List (List Handler)) (p0 : Handler → Bool) :
    row.foldl
      (fun (acc : List (List Handler) × List Handler) (col : PyStr) =>
        let inner := defs.foldl (headerStep col) ([], acc.2)
        (acc.1 ++ [inner.1], inner.2))
      (L0, defs.filter p0) =
      (L0 ++ row.map (fun col => defs.filter (fun h => decide (h.hname = col))),
       defs.filter (fun h => p0 h && !(row.contains h.hname))) := by
  induction row generalizing L0 p0 with
  | nil =>
      simp only [List.foldl_nil, List.map_nil, List.append_nil, Prod.mk.injEq, true_and]
      apply List.filter_congr
      intro x hx
      simp [List.contains_nil]
  | cons col row' ih =>
      simp only [List.foldl_cons]
      have h1 : (defs.foldl (headerStep col) ([], defs.filter p0)).1 =
          defs.filter (fun h => decide (h.hname = col)) := by
        rw [headerInner_fst]; rfl
      have h2 : (defs.foldl (headerStep col) ([], defs.filter p0)).2 =
          defs.filter (fun h => p0 h && !(decide (h.hname = col))) := by
        rw [headerInner_snd defs col _ _ (hnd.filter _), List.filter_filter]
        apply List.filter_congr
        intro x hx
        simp [hx, Bool.and_comm]
      simp only [h1, h2]
      rw [ih _ _]
      simp only [Prod.mk.injEq]
      constructor
      · rw [List.map_cons, List.append_assoc]
        rfl
      · apply List.filter_congr
        intro x hx
        by_cases hc : x.hname = col <;>
          simp [List.contains_cons, hc, Bool.and_assoc]

theorem ph_fold_all (row : List PyStr) (defs : List Handler) (hnd : defs.Nodup)
    (L0 : List (List Handler)) :
    row.foldl
      (fun (acc : List (List Handler) × List Handler) (col : PyStr) =>
        let inner := defs.foldl (headerStep col) ([], acc.2)
        (acc.1 ++ [inner.1], inner.2))
      (L0, defs) =
      (L0 ++ row.map (fun col => defs.filter (fun h => decide (h.hname = col))),
       unmatchedHandlers defs row) := by
  have hfold := ph_fold row defs hnd L0 (fun _ => true)
  rw [List.filter_true] at hfold
  rw [hfold]
  simp only [Prod.mk.injEq, true_and]
  apply List.filter_congr
  intro x hx
  simp [unmatchedHandlers]

theorem process_headers_eq (defs : List Handler) (row : List PyStr) (hnd : defs.Nodup) :
    process_headers defs row =
      (row.map (fun col => defs.filter (fun h => decide (h.hname = col))),
       if unmatchedHandlers defs row = [] then []
       else [Warn.headersNotFound ((unmatchedHandlers defs row).map (fun h => h.hname))]) := by
  simp only [process_headers]
  rw [ph_fold_all row defs hnd []]
  simp only [List.nil_append]
  by_cases hz : unmatchedHandlers defs row = []
  · simp [hz]
  · simp [hz]

theorem anonymize_row_shape (g : Gen) :
    ∀ (cells : List Value) (hss : List (List Handler)) (st : St) (out : List Value) (st' : St),
      anonymize_row g hss cells st = some (out, st') →
      out.length = cells.length ∧
      ∀ i : Nat, hss.getD i [] = [] → out.getD i vnull = cells.getD i vnull := by
  intro cells
  induction cells with
  | nil =>
      intro hss st out st' H
      cases hss with
      | nil =>
          have H2 : some (([] : List Value), st) = some (out, st') := H
          injection H2 with H3
          obtain ⟨h1, _⟩ := Prod.mk.injEq _ _ _ _ ▸ H3
          subst h1
          exact ⟨rfl, fun i _ => rfl⟩
      | cons hs hss' =>
          have H2 : some (([] : List Value), st) = some (out, st') := H
          injection H2 with H3
          obtain ⟨h1, _⟩ := Prod.mk.injEq _ _ _ _ ▸ H3
          subst h1
          exact ⟨rfl, fun i _ => rfl⟩
  | cons c cs ih =>
      intro hss st out st' H
      cases hss with
      | nil => exact absurd H (by simp [anonymize_row])
      | cons hs hss' =>
          unfold anonymize_row at H
          cases hcell : cellLoop g hs c st with
          | none => rw [hcell] at H; exact absurd H (by simp)
          | some r1 =>
              obtain ⟨c1, st1⟩ := r1
              rw [hcell] at H
              dsimp only at H
              cases hrow : anonymize_row g hss' cs st1 with
              | none => rw [hrow] at H; exact absurd H (by simp)
              | some r2 =>
                  obtain ⟨cs2, st2⟩ := r2
                  rw [hrow] at H
                  dsimp only at H
                  injection H with H3
                  obtain ⟨h1, h2⟩ := Prod.mk.injEq _ _ _ _ ▸ H3
                  obtain ⟨ihlen, ihframe⟩ := ih hss' st1 cs2 st2 hrow
                  subst h1
                  refine ⟨by simp [ihlen], ?_⟩
                  intro i hi
                  cases i with
                  | zero =>
                      simp only [List.getD_cons_zero]
                      have hhs : hs = [] := by simpa using hi
                      subst hhs
                      have hc1 : cellLoop g [] c st = some (c, st) := rfl
                      rw [hc1] at hcell
                      injection hcell with hcc
                      obtain ⟨e1, _⟩ := Prod.mk.injEq _ _ _ _ ▸ hcc
                      exact e1.symm
                  | succ j =>
                      simp only [List.getD_cons_succ]
                      exact ihframe j (by simpa using hi)

theorem anonymize_row_all_nil (g : Gen) :
    ∀ (cells : List Value) (hss : List (List Handler)) (st : St),
      (∀ l ∈ hss, l = []) → cells.length ≤ hss.length →
      anonymize_row g hss cells st = some (cells, st) := by
  intro cells
  induction cells with
  | nil => intro hss st _ _; cases hss <;> rfl
  | cons c cs ih =>
      intro hss st hnil hlen
      cases hss with
      | nil => simp at hlen
      | cons hs hss' =>
          have h0 : hs = [] := hnil hs (by simp)
          subst h0
          unfold anonymize_row
          have hc : cellLoop g [] c st = some (c, st) := rfl
          rw [hc]
          dsimp only
          rw [ih hss' st (fun l hl => hnil l (by simp [hl])) (by simpa using hlen)]

/-- C9: when some configured handlers match no header column, header
processing emits exactly one warning listing the names of all unmatched
handlers, binds those handlers to no column, continues with exactly the
matched handlers per column, and a run configured solely with a handler for
a nonexistent column leaves every data row and the whole state unchanged. -/
theorem C9_unmatched_headers (defs : List Handler) (row : List PyStr) (hnd : defs.Nodup)
    (hne : unmatchedHandlers defs row ≠ []) :
    (process_headers defs row).2 =
      [Warn.headersNotFound ((unmatchedHandlers defs row).map (fun h => h.hname))] ∧
    (process_headers defs row).1 =
      row.map (fun col => defs.filter (fun h => decide (h.hname = col))) ∧
    (∀ h ∈ unmatchedHandlers defs row, ∀ l ∈ (process_headers defs row).1, h ∉ l) ∧
    (∀ (g : Gen) (st : St) (h0 : Handler) (cells : List Value),
      defs = [h0] → cells.length ≤ row.length →
      anonymize_row g (process_headers defs row).1 cells st = some (cells, st)) := by
  have hpe := process_headers_eq defs row hnd
  refine ⟨?_, ?_, ?_, ?_⟩
  · rw [hpe]; simp [hne]
  · rw [hpe]
  · intro h hh l hl hmem
    rw [hpe] at hl
    simp only at hl
    obtain ⟨col, hcol, rfl⟩ := List.mem_map.mp hl
    have h1 : h.hname = col := by
      have := (List.mem_filter.mp hmem).2
      simpa using this
    have h2 : ¬(row.contains h.hname = true) := by
      have := (List.mem_filter.mp hh).2
      simp only [unmatchedHandlers] at hh ⊢
      simpa using (List.mem_filter.mp hh).2
    exact h2 (by rw [h1]; exact List.elem_iff.mpr hcol)
  · intro g st h0 cells hdefs hlen
    subst hdefs
    rw [hpe]
    simp only
    have hnm : ¬(row.contains h0.hname = true) := by
      intro hb
      apply hne
      have hmem : h0.hname ∈ row := List.elem_iff.mp hb
      simp [unmatchedHandlers, List.filter, hmem]
    apply anonymize_row_all_nil
    · intro l hl
      obtain ⟨col, hcol, rfl⟩ := List.mem_map.mp hl
      simp only [List.filter]
      have : decide (h0.hname = col) = false := by
        apply decide_eq_false
        intro heq
        exact hnm (heq ▸ List.elem_iff.mpr hcol)
      rw [this]
    · simpa using hlen

/-- C9 witness: one handler configured for the nonexistent column "ssn"
against a header ["name"] yields exactly one warning naming it and leaves a
data row unchanged. -/
theorem C9_witness :
    (process_headers [hSsn] [("name").data]).2 =
      [Warn.headersNotFound ((unmatchedHandlers [hSsn] [("name").data]).map (fun h => h.hname))] ∧
    anonymize_row cg (process_headers [hSsn] [("name").data]).1 [vstr ("x").data] St.empty =
      some ([vstr ("x").data], St.empty) :=
  ⟨(C9_unmatched_headers [hSsn] [("name").data] (by simp) (by decide)).1,
   (C9_unmatched_headers [hSsn] [("name").data] (by simp) (by decide)).2.2.2
     cg St.empty hSsn [vstr ("x").data] rfl (by decide)⟩

/-- C10: a successful anonymize_row returns a row of the same length, and
every cell in a column with no bound handler comes back identical to its
input; only cells of columns with at least one bound handler can differ. -/
theorem C10_row_frame (g : Gen) (cells : List Value) (hss : List (List Handler))
    (st : St) (out : List Value) (st' : St)
    (H : anonymize_row g hss cells st = some (out, st')) :
    out.length = cells.length ∧
    ∀ i : Nat, hss.getD i [] = [] → out.getD i vnull = cells.getD i vnull :=
  anonymize_row_shape g cells hss st out st' H

/-- C10 witness: a two-column row with a handler bound only to the second
column keeps its length and its first cell byte-identical. -/
theorem C10_witness :
    anonymize_row cg [[], [hNm]] [vstr ("a").data, vstr ("b").data] St.empty =
      some ([vstr ("a").data, vstr ("Fake Person").data], stNmB) ∧
    ([vstr ("a").data, vstr ("Fake Person").data] : List Value).length =
      ([vstr ("a").data, vstr ("b").data] : List Value).length ∧
    ([vstr ("a").data, vstr ("Fake Person").data] : List Value).getD 0 vnull =
      ([vstr ("a").data, vstr ("b").data] : List Value).getD 0 vnull :=
  ⟨by decide,
   (C10_row_frame cg [vstr ("a").data, vstr ("b").data] [[], [hNm]] St.empty
     [vstr ("a").data, vstr ("Fake Person").data] stNmB (by decide)).1,
   (C10_row_frame cg [vstr ("a").data, vstr ("b").data] [[], [hNm]] St.empty
     [vstr ("a").data, vstr ("Fake Person").data] stNmB (by decide)).2 0 rfl⟩

/-! ## Position and slicing lemmas for delimiter-structured strings -/

theorem pyFindCharFrom_pfx (A r : PyStr) (ch : Char) (k : Nat) (hk : k ≤ A.length)
    (hA : ∀ x ∈ A.drop k, x ≠ ch) :
    pyFindCharFrom (A ++ ch :: r) ch k = A.length := by
  unfold pyFindCharFrom
  rw [List.drop_append_of_le_length hk, List.findIdx?_append]
  have h1 : (A.drop k).findIdx? (fun a => a == ch) = none :=
    List.findIdx?_eq_none_iff.mpr (fun x hx => by simpa using hA x hx)
  have h2 : (ch :: r).findIdx? (fun a => a == ch) = some 0 := by simp
  rw [h1, h2]
  simp only [Option.none_or, Option.map_some']
  have hlen : (A.drop k).length = A.length - k := List.length_drop _ _
  simp only [Nat.zero_add, hlen]
  omega

theorem pySliceTo_pfx (A t : PyStr) : pySliceTo (A ++ t) (A.length : Int) = A := by
  unfold pySliceTo
  rw [if_pos (Int.natCast_nonneg _), Int.toNat_natCast]
  exact List.take_left A t

theorem pySliceFrom_pfx (A t : PyStr) : pySliceFrom (A ++ t) (A.length : Int) = t := by
  unfold pySliceFrom
  rw [if_pos (Int.natCast_nonneg _), Int.toNat_natCast]
  exact List.drop_left A t

theorem find_nth_quad (a b c d : PyStr) (ch : Char)
    (ha : ∀ x ∈ a, x ≠ ch) (hb : ∀ x ∈ b, x ≠ ch) (hc : ∀ x ∈ c, x ≠ ch) :
    find_nth (a ++ ch :: (b ++ ch :: (c ++ ch :: d))) ch 3 =
      ((a ++ ch :: (b ++ ch :: c)).length : Int) := by
  have e1 : pyFindCharFrom (a ++ ch :: (b ++ ch :: (c ++ ch :: d))) ch 0 = a.length :=
    pyFindCharFrom_pfx a _ ch 0 (Nat.zero_le _) (by simpa using ha)
  have shape2 : a ++ ch :: (b ++ ch :: (c ++ ch :: d)) =
      (a ++ ch :: b) ++ ch :: (c ++ ch :: d) := by
    simp
  have hdrop2 : (a ++ ch :: b).drop (a.length + 1) = b := by
    rw [show a ++ ch :: b = (a ++ [ch]) ++ b by simp]
    exact List.drop_left' (by simp)
  have e2 : pyFindCharFrom (a ++ ch :: (b ++ ch :: (c ++ ch :: d))) ch (a.length + 1) =
      (a ++ ch :: b).length := by
    rw [shape2]
    apply pyFindCharFrom_pfx
    · simp
    · intro x hx
      rw [hdrop2] at hx
      exact hb x hx
  have shape3 : a ++ ch :: (b ++ ch :: (c ++ ch :: d)) =
      (a ++ ch :: (b ++ ch :: c)) ++ ch :: d := by
    simp
  have hdrop3 : (a ++ ch :: (b ++ ch :: c)).drop (a.length + b.length + 2) = c := by
    rw [show a ++ ch :: (b ++ ch :: c) = ((a ++ [ch]) ++ (b ++ [ch])) ++ c by simp]
    apply List.drop_left'
    simp
    omega
  have e3 : pyFindCharFrom (a ++ ch :: (b ++ ch :: (c ++ ch :: d))) ch
      (a.length + b.length + 2) = (a ++ ch :: (b ++ ch :: c)).length := by
    rw [shape3]
    apply pyFindCharFrom_pfx
    · simp
      omega
    · intro x hx
      rw [hdrop3] at hx
      exact hc x hx
  unfold find_nth
  rw [e1]
  show findLoop _ ch _ (1 + 2) = _
  unfold findLoop
  rw [if_neg (by omega)]
  rw [Int.toNat_natCast, e2]
  show findLoop _ ch _ (0 + 2) = _
  unfold findLoop
  rw [if_neg (by omega)]
  rw [Int.toNat_natCast]
  have harith : (a ++ ch :: b).length + 1 = a.length + b.length + 2 := by
    simp
    omega
  rw [harith, e3]
  rfl

theorem find_nth_five (a b c d e : PyStr) (ch : Char)
    (ha : ∀ x ∈ a, x ≠ ch) (hb : ∀ x ∈ b, x ≠ ch) (hc : ∀ x ∈ c, x ≠ ch)
    (hd : ∀ x ∈ d, x ≠ ch) :
    find_nth (a ++ ch :: (b ++ ch :: (c ++ ch :: (d ++ ch :: e)))) ch 4 =
      ((a ++ ch :: (b ++ ch :: (c ++ ch :: d))).length : Int) := by
  have e1 : pyFindCharFrom (a ++ ch :: (b ++ ch :: (c ++ ch :: (d ++ ch :: e)))) ch 0 =
      a.length :=
    pyFindCharFrom_pfx a _ ch 0 (Nat.zero_le _) (by simpa using ha)
  have shape2 : a ++ ch :: (b ++ ch :: (c ++ ch :: (d ++ ch :: e))) =
      (a ++ ch :: b) ++ ch :: (c ++ ch :: (d ++ ch :: e)) := by
    simp
  have hdrop2 : (a ++ ch :: b).drop (a.length + 1) = b := by
    rw [show a ++ ch :: b = (a ++ [ch]) ++ b by simp]
    exact List.drop_left' (by simp)
  have e2 : pyFindCharFrom (a ++ ch :: (b ++ ch :: (c ++ ch :: (d ++ ch :: e)))) ch
      (a.length + 1) = (a ++ ch :: b).length := by
    rw [shape2]
    apply pyFindCharFrom_pfx
    · simp
    · intro x hx
      rw [hdrop2] at hx
      exact hb x hx
  have shape3 : a ++ ch :: (b ++ ch :: (c ++ ch :: (d ++ ch :: e))) =
      (a ++ ch :: (b ++ ch :: c)) ++ ch :: (d ++ ch :: e) := by
    simp
  have hdrop3 : (a ++ ch :: (b ++ ch :: c)).drop (a.length + b.length + 2) = c := by
    rw [show a ++ ch :: (b ++ ch :: c) = ((a ++ [ch]) ++ (b ++ [ch])) ++ c by simp]
    apply List.drop_left'
    simp
    omega
  have e3 : pyFindCharFrom (a ++ ch :: (b ++ ch :: (c ++ ch :: (d ++ ch :: e)))) ch
      (a.length + b.length + 2) = (a ++ ch :: (b ++ ch :: c)).length := by
    rw [shape3]
    apply pyFindCharFrom_pfx
    · simp
      omega
    · intro x hx
      rw [hdrop3] at hx
      exact hc x hx
  have shape4 : a ++ ch :: (b ++ ch :: (c ++ ch :: (d ++ ch :: e))) =
      (a ++ ch :: (b ++ ch :: (c ++ ch :: d))) ++ ch :: e := by
    simp
  have hdrop4 : (a ++ ch :: (b ++ ch :: (c ++ ch :: d))).drop
      (a.length + b.length + c.length + 3) = d := by
    rw [show a ++ ch :: (b ++ ch :: (c ++ ch :: d)) =
      ((a ++ [ch]) ++ ((b ++ [ch]) ++ (c ++ [ch]))) ++ d by simp]
    apply List.drop_left'
    simp
    omega
  have e4 : pyFindCharFrom (a ++ ch :: (b ++ ch :: (c ++ ch :: (d ++ ch :: e)))) ch
      (a.length + b.length + c.length + 3) =
      (a ++ ch :: (b ++ ch :: (c ++ ch :: d))).length := by
    rw [shape4]
    apply pyFindCharFrom_pfx
    · simp
      omega
    · intro x hx
      rw [hdrop4] at hx
      exact hd x hx
  unfold find_nth
  rw [e1]
  show findLoop _ ch _ (2 + 2) = _
  unfold findLoop
  rw [if_neg (by omega)]
  rw [Int.toNat_natCast, e2]
  show findLoop _ ch _ (1 + 2) = _
  unfold findLoop
  rw [if_neg (by omega)]
  rw [Int.toNat_natCast]
  have har2 : (a ++ ch :: b).length + 1 = a.length + b.length + 2 := by
    simp
    omega
  rw [har2, e3]
  show findLoop _ ch _ (0 + 2) = _
  unfold findLoop
  rw [if_neg (by omega)]
  rw [Int.toNat_natCast]
  have har3 : (a ++ ch :: (b ++ ch :: c)).length + 1 = a.length + b.length + c.length + 3 := by
    simp
    omega
  rw [har3, e4]
  rfl

/-! ## Decimal, hex and split facts for address strings -/

theorem decStr_facts : ∀ n : Nat, n < 256 →
    '.' ∉ decStr n ∧ '/' ∉ decStr n ∧ ':' ∉ decStr n ∧ parseOctet (decStr n) = some n := by
  decide

theorem pfx32_facts : ∀ p : Nat, p < 33 →
    '/' ∉ decStr p ∧ '.' ∉ decStr p ∧ parsePfxLen (decStr p) 32 = some p ∧
    pyInt (decStr p) = some (p : Int) := by
  decide

theorem nib_facts : ∀ k : Nat, k < 16 →
    nibChar k ≠ ':' ∧ nibChar k ≠ '/' ∧ nibChar k ≠ '.' := by
  decide

theorem decStr_no (n : Nat) (h : n ≤ 255) :
    ∀ x ∈ decStr n, x ≠ '.' ∧ x ≠ '/' ∧ x ≠ ':' := by
  intro x hx
  obtain ⟨h1, h2, h3, _⟩ := decStr_facts n (by omega)
  exact ⟨fun e => h1 (e ▸ hx), fun e => h2 (e ▸ hx), fun e => h3 (e ▸ hx)⟩

theorem hex4_chars (n : Nat) : ∀ x ∈ hex4 n, x ≠ ':' ∧ x ≠ '/' ∧ x ≠ '.' := by
  intro x hx
  have h16 : ∀ m : Nat, m % 16 < 16 := fun m => Nat.mod_lt _ (by norm_num)
  simp only [hex4, List.mem_cons, List.mem_singleton, List.not_mem_nil, or_false] at hx
  rcases hx with rfl | rfl | rfl | rfl
  · exact nib_facts _ (h16 _)
  · exact nib_facts _ (h16 _)
  · exact nib_facts _ (h16 _)
  · exact nib_facts _ (h16 _)

theorem pySplit_nosep (s : PyStr) (ch : Char) (h : ∀ x ∈ s, x ≠ ch) :
    pySplit s ch = [s] := by
  induction s with
  | nil => rfl
  | cons a rest ih =>
      unfold pySplit
      rw [if_neg (h a (by simp))]
      rw [ih (fun x hx => h x (by simp [hx]))]

theorem pySplit_sep (a r : PyStr) (ch : Char) (h : ∀ x ∈ a, x ≠ ch) :
    pySplit (a ++ ch :: r) ch = a :: pySplit r ch := by
  induction a with
  | nil =>
      show pySplit (ch :: r) ch = [] :: pySplit r ch
      simp [pySplit]
  | cons x xs ih =>
      have hx : x ≠ ch := h x (by simp)
      show pySplit (x :: (xs ++ ch :: r)) ch = (x :: xs) :: pySplit r ch
      simp only [pySplit]
      rw [if_neg hx, ih (fun y hy => h y (by simp [hy]))]

theorem contains_eq_false_of (s : PyStr) (c : Char) (h : c ∉ s) : s.contains c = false := by
  cases hb : s.contains c
  · rfl
  · exact absurd (List.elem_iff.mp hb) h

theorem not_mem_shape4 (a b c d : PyStr) (ch x : Char)
    (ha : x ∉ a) (hb : x ∉ b) (hc : x ∉ c) (hd : x ∉ d) (hch : x ≠ ch) :
    x ∉ a ++ ch :: (b ++ ch :: (c ++ ch :: d)) := by
  simp only [List.mem_append, List.mem_cons]
  rintro (h | h | h | h | h | h | h) <;> first
    | exact ha h | exact hb h | exact hc h | exact hd h | exact hch h

theorem ipv4Str_count (q : Quad) (h : QOk q) : (ipv4Str q).count '.' = 3 := by
  obtain ⟨h1, h2, h3, h4⟩ := h
  unfold ipv4Str
  have z : ∀ n : Nat, n ≤ 255 → (decStr n).count '.' = 0 := fun n hn =>
    List.count_eq_zero.mpr (decStr_facts n (by omega)).1
  simp [List.count_append, List.count_cons, z _ h1, z _ h2, z _ h3, z _ h4]

theorem ipv4Str_no_slash (q : Quad) (h : QOk q) : (ipv4Str q).contains '/' = false := by
  obtain ⟨h1, h2, h3, h4⟩ := h
  apply contains_eq_false_of
  unfold ipv4Str
  apply not_mem_shape4 <;>
    first
      | exact (decStr_facts _ (by omega)).2.1
      | decide

theorem ipv4Parse_str (q : Quad) (h : QOk q) : ipv4Parse (ipv4Str q) = some q := by
  obtain ⟨h1, h2, h3, h4⟩ := h
  have nd : ∀ n : Nat, n ≤ 255 → ∀ x ∈ decStr n, x ≠ '.' := fun n hn x hx =>
    (decStr_no n hn x hx).1
  unfold ipv4Parse ipv4Str
  rw [pySplit_sep _ _ _ (nd _ h1), pySplit_sep _ _ _ (nd _ h2),
    pySplit_sep _ _ _ (nd _ h3), pySplit_nosep _ _ (nd _ h4)]
  simp only [(decStr_facts _ (by omega : q.o1 < 256)).2.2.2,
    (decStr_facts _ (by omega : q.o2 < 256)).2.2.2,
    (decStr_facts _ (by omega : q.o3 < 256)).2.2.2,
    (decStr_facts _ (by omega : q.o4 < 256)).2.2.2]

/-! ## gen_new_ip on well-formed IPv4 strings -/

theorem ipv4Str_split (q : Quad) : ipv4Str q = ipNet3 q ++ '.' :: decStr q.o4 := by
  unfold ipv4Str ipNet3
  simp

theorem find_nth_ipv4 (q : Quad) (hq : QOk q) :
    find_nth (ipv4Str q) '.' 3 = ((ipNet3 q).length : Int) := by
  obtain ⟨h1, h2, h3, h4⟩ := hq
  have nd : ∀ n : Nat, n ≤ 255 → ∀ x ∈ decStr n, x ≠ '.' := fun n hn x hx =>
    (decStr_no n hn x hx).1
  exact find_nth_quad _ _ _ _ '.' (nd _ h1) (nd _ h2) (nd _ h3)

theorem gen_new_ip_v4_hit (q : Quad) (hq : QOk q) (fk : Nat → Option PyStr) (st : St)
    (nn : PyStr) (hhit : slookup st.networks (ipNet3 q) = some nn) :
    gen_new_ip (ipv4Str q) '.' 3 fk st = some (nn ++ '.' :: decStr q.o4, st) := by
  have hnet : pySliceTo (ipv4Str q) ((ipNet3 q).length : Int) = ipNet3 q := by
    rw [ipv4Str_split q]
    exact pySliceTo_pfx _ _
  have hhost : pySliceFrom (ipv4Str q) ((ipNet3 q).length : Int) = '.' :: decStr q.o4 := by
    rw [ipv4Str_split q]
    exact pySliceFrom_pfx _ _
  simp only [gen_new_ip, find_nth_ipv4 q hq, hnet, hhost, hhit]

theorem gen_new_ip_v4_miss (q f : Quad) (hq : QOk q) (hf : QOk f)
    (fk : Nat → Option PyStr) (st : St)
    (hfresh : slookup st.networks (ipNet3 q) = none)
    (hgen : fk st.tick = some (ipv4Str f)) :
    gen_new_ip (ipv4Str q) '.' 3 fk st =
      some (ipNet3 f ++ '.' :: decStr q.o4,
        ⟨st.cache, st.domains, (ipNet3 q, ipNet3 f) :: st.networks,
         st.ctype, st.tick + 1, st.warns⟩) := by
  have hnet : pySliceTo (ipv4Str q) ((ipNet3 q).length : Int) = ipNet3 q := by
    rw [ipv4Str_split q]
    exact pySliceTo_pfx _ _
  have hhost : pySliceFrom (ipv4Str q) ((ipNet3 q).length : Int) = '.' :: decStr q.o4 := by
    rw [ipv4Str_split q]
    exact pySliceFrom_pfx _ _
  have hnetf : pySliceTo (ipv4Str f) ((ipNet3 f).length : Int) = ipNet3 f := by
    rw [ipv4Str_split f]
    exact pySliceTo_pfx _ _
  simp only [gen_new_ip, find_nth_ipv4 q hq, hnet, hhost, hfresh, hgen,
    find_nth_ipv4 f hf, hnetf]

/-! ## IPField.anonymize_data on canonical bare IPv4 inputs -/

theorem ipAnonData_v4_miss (g : Gen) (fs : PyStr) (q f : Quad) (hq : QOk q) (hf : QOk f)
    (st : St) (hfresh : slookup st.networks (ipNet3 q) = none)
    (hgen : g.gipv4 st.tick = ipv4Str f) :
    ipAnonData g fs (ipv4Str q) st =
      some (vstr (ipNet3 f ++ '.' :: decStr q.o4),
        ⟨st.cache, st.domains, (ipNet3 q, ipNet3 f) :: st.networks,
         st.ctype, st.tick + 1, st.warns⟩) := by
  unfold ipAnonData
  rw [if_pos (ipv4Str_count q hq)]
  simp only [ipv4Str_no_slash q hq, Bool.false_eq_true, if_false, Bool.false_and,
    ipv4Parse_str q hq]
  rw [gen_new_ip_v4_miss q f hq hf _ st hfresh (by simp [hgen])]

theorem ipAnonData_v4_hit (g : Gen) (fs : PyStr) (q : Quad) (hq : QOk q)
    (st : St) (nn : PyStr) (hhit : slookup st.networks (ipNet3 q) = some nn) :
    ipAnonData g fs (ipv4Str q) st = some (vstr (nn ++ '.' :: decStr q.o4), st) := by
  unfold ipAnonData
  rw [if_pos (ipv4Str_count q hq)]
  simp only [ipv4Str_no_slash q hq, Bool.false_eq_true, if_false, Bool.false_and,
    ipv4Parse_str q hq]
  rw [gen_new_ip_v4_hit q hq _ st nn hhit]

/-! ## gen_new_ip and anonymize_data on exploded IPv6 inputs -/

theorem ipv6Exploded_split (m : Nat) : ipv6Exploded m = v6Net4 m ++ v6Host m := by
  unfold ipv6Exploded v6Net4 v6Host
  simp

theorem find_nth_ipv6 (m : Nat) :
    find_nth (ipv6Exploded m) ':' 4 = ((v6Net4 m).length : Int) := by
  have nc : ∀ k : Nat, ∀ x ∈ hex4 k, x ≠ ':' := fun k x hx => (hex4_chars k x hx).1
  exact find_nth_five _ _ _ _ _ ':' (nc _) (nc _) (nc _) (nc _)

theorem gen_new_ip_v6_hit (m : Nat) (fk : Nat → Option PyStr) (st : St) (nn : PyStr)
    (hhit : slookup st.networks (v6Net4 m) = some nn) :
    gen_new_ip (ipv6Exploded m) ':' 4 fk st = some (nn ++ v6Host m, st) := by
  have hnet : pySliceTo (ipv6Exploded m) ((v6Net4 m).length : Int) = v6Net4 m := by
    rw [ipv6Exploded_split m]
    exact pySliceTo_pfx _ _
  have hhost : pySliceFrom (ipv6Exploded m) ((v6Net4 m).length : Int) = v6Host m := by
    rw [ipv6Exploded_split m]
    exact pySliceFrom_pfx _ _
  simp only [gen_new_ip, find_nth_ipv6 m, hnet, hhost, hhit]

theorem gen_new_ip_v6_miss (m fm : Nat) (fk : Nat → Option PyStr) (st : St)
    (hfresh : slookup st.networks (v6Net4 m) = none)
    (hgen : fk st.tick = some (ipv6Exploded fm)) :
    gen_new_ip (ipv6Exploded m) ':' 4 fk st =
      some (v6Net4 fm ++ v6Host m,
        ⟨st.cache, st.domains, (v6Net4 m, v6Net4 fm) :: st.networks,
         st.ctype, st.tick + 1, st.warns⟩) := by
  have hnet : pySliceTo (ipv6Exploded m) ((v6Net4 m).length : Int) = v6Net4 m := by
    rw [ipv6Exploded_split m]
    exact pySliceTo_pfx _ _
  have hhost : pySliceFrom (ipv6Exploded m) ((v6Net4 m).length : Int) = v6Host m := by
    rw [ipv6Exploded_split m]
    exact pySliceFrom_pfx _ _
  have hnetf : pySliceTo (ipv6Exploded fm) ((v6Net4 fm).length : Int) = v6Net4 fm := by
    rw [ipv6Exploded_split fm]
    exact pySliceTo_pfx _ _
  simp only [gen_new_ip, find_nth_ipv6 m, hnet, hhost, hfresh, hgen,
    find_nth_ipv6 fm, hnetf]

theorem ipAnonData_v6_miss (g : Gen) (fs s : PyStr) (m fm : Nat) (st : St)
    (hcount : ¬(s.count '.' = 3)) (hslash : s.contains '/' = false)
    (hparse : ipv6ParseInt s = some m)
    (hfresh : slookup st.networks (v6Net4 m) = none)
    (hgen : ipv6ParseInt (g.gipv6 st.tick) = some fm) :
    ipAnonData g fs s st =
      some (vstr (v6Net4 fm ++ v6Host m),
        ⟨st.cache, st.domains, (v6Net4 m, v6Net4 fm) :: st.networks,
         st.ctype, st.tick + 1, st.warns⟩) := by
  unfold ipAnonData
  rw [if_neg hcount]
  simp only [hslash, Bool.false_eq_true, if_false, Bool.false_and, hparse]
  rw [gen_new_ip_v6_miss m fm _ st hfresh (by simp [hgen])]

theorem ipAnonData_v6_hit (g : Gen) (fs s : PyStr) (m : Nat) (st : St) (nn : PyStr)
    (hcount : ¬(s.count '.' = 3)) (hslash : s.contains '/' = false)
    (hparse : ipv6ParseInt s = some m)
    (hhit : slookup st.networks (v6Net4 m) = some nn) :
    ipAnonData g fs s st = some (vstr (nn ++ v6Host m), st) := by
  unfold ipAnonData
  rw [if_neg hcount]
  simp only [hslash, Bool.false_eq_true, if_false, Bool.false_and, hparse]
  rw [gen_new_ip_v6_hit m _ st nn hhit]

/-- C3 counterexample: the substitute network is not guaranteed different
from the original (a public generator draw can land in the input's own /24,
here 8.8.8.0/24), and two different /24s can map to the SAME substitute
network when the generator repeats a draw — the code never checks either. -/
theorem C3_counterexample :
    ipAnonData cgSame ("addr").data (("8.8.8.5").data) St.empty =
      some (vstr ("8.8.8.5").data,
        ⟨[], [], [(("8.8.8").data, ("8.8.8").data)], CKind.kstr, 1, []⟩) ∧
    ipAnonData cgRepeat ("addr").data (("1.2.3.4").data) St.empty =
      some (vstr ("9.9.9.4").data, stRep1) ∧
    ipAnonData cgRepeat ("addr").data (("5.6.7.8").data) stRep1 =
      some (vstr ("9.9.9.8").data, stRep2) ∧
    (("1.2.3").data : PyStr) ≠ ("5.6.7").data :=
  ⟨by decide, by decide, by decide, by decide⟩

/-- C3 (amended): IPv4 addresses sharing a /24 map to substitutes that share
the first three octets (the substitute network cached for that /24, namely
the first three octets of the generator's draw), with everything from the
third '.' onward copied verbatim; an address in a different /24 gets the
substitute network truncated from its own generator draw, so different /24s
map to different substitute networks exactly when those draws' prefixes
differ (neither distinctness from the original nor across networks is
enforced).  The analogue holds for IPv6 at the fourth ':' of the exploded
form. -/
theorem C3_subnet_preservation (g : Gen) (fs : PyStr) (st : St)
    (q1 q2 q3 f f2 : Quad) (hq1 : QOk q1) (hq2 : QOk q2) (hq3 : QOk q3)
    (hf : QOk f) (hf2 : QOk f2)
    (hsame : ipNet3 q2 = ipNet3 q1)
    (hfresh1 : slookup st.networks (ipNet3 q1) = none)
    (hgen1 : g.gipv4 st.tick = ipv4Str f)
    (hdiff : ipNet3 q3 ≠ ipNet3 q1)
    (hfresh3 : slookup st.networks (ipNet3 q3) = none)
    (hgen3 : g.gipv4 (st.tick + 1) = ipv4Str f2)
    (s1 s2 : PyStr) (m1 m2 fm : Nat) (stv : St)
    (hc1 : ¬(s1.count '.' = 3)) (hsl1 : s1.contains '/' = false)
    (hp1 : ipv6ParseInt s1 = some m1)
    (hc2 : ¬(s2.count '.' = 3)) (hsl2 : s2.contains '/' = false)
    (hp2 : ipv6ParseInt s2 = some m2)
    (hnet64 : v6Net4 m2 = v6Net4 m1)
    (hfreshv : slookup stv.networks (v6Net4 m1) = none)
    (hgen6 : ipv6ParseInt (g.gipv6 stv.tick) = some fm) :
    ipAnonData g fs (ipv4Str q1) st =
      some (vstr (ipNet3 f ++ '.' :: decStr q1.o4),
        ⟨st.cache, st.domains, (ipNet3 q1, ipNet3 f) :: st.networks,
         st.ctype, st.tick + 1, st.warns⟩) ∧
    ipAnonData g fs (ipv4Str q2)
        ⟨st.cache, st.domains, (ipNet3 q1, ipNet3 f) :: st.networks,
         st.ctype, st.tick + 1, st.warns⟩ =
      some (vstr (ipNet3 f ++ '.' :: decStr q2.o4),
        ⟨st.cache, st.domains, (ipNet3 q1, ipNet3 f) :: st.networks,
         st.ctype, st.tick + 1, st.warns⟩) ∧
    ipAnonData g fs (ipv4Str q3)
        ⟨st.cache, st.domains, (ipNet3 q1, ipNet3 f) :: st.networks,
         st.ctype, st.tick + 1, st.warns⟩ =
      some (vstr (ipNet3 f2 ++ '.' :: decStr q3.o4),
        ⟨st.cache, st.domains,
         (ipNet3 q3, ipNet3 f2) :: (ipNet3 q1, ipNet3 f) :: st.networks,
         st.ctype, st.tick + 2, st.warns⟩) ∧
    ipAnonData g fs s1 stv =
      some (vstr (v6Net4 fm ++ v6Host m1),
        ⟨stv.cache, stv.domains, (v6Net4 m1, v6Net4 fm) :: stv.networks,
         stv.ctype, stv.tick + 1, stv.warns⟩) ∧
    ipAnonData g fs s2
        ⟨stv.cache, stv.domains, (v6Net4 m1, v6Net4 fm) :: stv.networks,
         stv.ctype, stv.tick + 1, stv.warns⟩ =
      some (vstr (v6Net4 fm ++ v6Host m2),
        ⟨stv.cache, stv.domains, (v6Net4 m1, v6Net4 fm) :: stv.networks,
         stv.ctype, stv.tick + 1, stv.warns⟩) := by
  refine ⟨ipAnonData_v4_miss g fs q1 f hq1 hf st hfresh1 hgen1, ?_, ?_,
    ipAnonData_v6_miss g fs s1 m1 fm stv hc1 hsl1 hp1 hfreshv hgen6, ?_⟩
  · apply ipAnonData_v4_hit g fs q2 hq2 _ (ipNet3 f)
    simp [slookup, hsame]
  · apply ipAnonData_v4_miss g fs q3 f2 hq3 hf2 _ _ hgen3
    simp [slookup, hdiff, hfresh3]
  · apply ipAnonData_v6_hit g fs s2 m2 _ (v6Net4 fm) hc2 hsl2 hp2
    simp [slookup, hnet64]

/-- C3 witness: 10.0.0.5 and 10.0.0.9 share the substitute /24 200.1.2 with
host octets verbatim, and 2001:db8::1 keeps its exploded host suffix behind
the substitute /64. -/
theorem C3_witness :
    ipAnonData cg ("addr").data (ipv4Str ⟨10, 0, 0, 5⟩) St.empty =
      some (vstr (ipNet3 ⟨200, 1, 2, 3⟩ ++ '.' :: decStr 5), stC3a) ∧
    ipAnonData cg ("addr").data (ipv4Str ⟨10, 0, 0, 9⟩) stC3a =
      some (vstr (ipNet3 ⟨200, 1, 2, 3⟩ ++ '.' :: decStr 9), stC3a) ∧
    ipAnonData cg ("addr").data (("2001:db8::1").data) St.empty =
      some (vstr (v6Net4 mV6 ++ v6Host mV6), stC3v) := by
  have base := C3_subnet_preservation cg (("addr").data) St.empty
    ⟨10, 0, 0, 5⟩ ⟨10, 0, 0, 9⟩ ⟨10, 0, 1, 5⟩ ⟨200, 1, 2, 3⟩ ⟨200, 1, 2, 3⟩
    (by decide) (by decide) (by decide) (by decide) (by decide)
    (by decide) rfl (by decide) (by decide) rfl (by decide)
    (("2001:db8::1").data) (("2001:db8::2").data) mV6 (mV6 + 1) mV6 St.empty
    (by decide) (by decide) (by decide) (by decide) (by decide) (by decide)
    (by decide) rfl (by decide)
  exact ⟨base.1, base.2.1, base.2.2.2.1⟩

theorem ipv4Str_slash_not_mem (q : Quad) (h : QOk q) : '/' ∉ ipv4Str q := by
  obtain ⟨h1, h2, h3, h4⟩ := h
  unfold ipv4Str
  apply not_mem_shape4 <;>
    first
      | exact (decStr_facts _ (by omega)).2.1
      | decide

theorem cidr_count (q : Quad) (hq : QOk q) (mask : PyStr) (hmdot : '.' ∉ mask) :
    (ipv4Str q ++ '/' :: mask).count '.' = 3 := by
  rw [List.count_append, ipv4Str_count q hq]
  simp [List.count_cons, List.count_eq_zero.mpr hmdot]

theorem cidr_contains (q : Quad) (mask : PyStr) :
    (ipv4Str q ++ '/' :: mask).contains '/' = true :=
  List.elem_iff.mpr (by simp)

theorem cidr_split (q : Quad) (hq : QOk q) (mask : PyStr) (hmsl : '/' ∉ mask) :
    pySplit (ipv4Str q ++ '/' :: mask) '/' = [ipv4Str q, mask] := by
  rw [pySplit_sep _ _ _ (fun x hx e => ipv4Str_slash_not_mem q hq (by subst e; exact hx)),
    pySplit_nosep _ _ (fun x hx e => hmsl (by subst e; exact hx))]

theorem ipAnonData_cidr_valid (g : Gen) (fs : PyStr) (st : St) (q f : Quad)
    (hq : QOk q) (hf : QOk f) (p : Nat) (hp : p ≤ 32)
    (hfresh : slookup st.networks (ipNet3 q) = none)
    (hgen : g.gipv4 st.tick = ipv4Str f) :
    ipAnonData g fs (ipv4Str q ++ '/' :: decStr p) st =
      some (vstr (ipv4Str (mask4 ⟨f.o1, f.o2, f.o3, q.o4⟩ p) ++ '/' :: decStr p),
        ⟨st.cache, st.domains, (ipNet3 q, ipNet3 f) :: st.networks,
         st.ctype, st.tick + 1, st.warns⟩) := by
  have hpf := pfx32_facts p (by omega)
  have hdec : decide ((0 : Int) ≤ (p : Int) ∧ (p : Int) ≤ 32) = true :=
    decide_eq_true (by constructor <;> omega)
  have hmix : ipNet3 f ++ '.' :: decStr q.o4 = ipv4Str ⟨f.o1, f.o2, f.o3, q.o4⟩ := by
    rw [ipv4Str_split]
    rfl
  have hmixOk : QOk ⟨f.o1, f.o2, f.o3, q.o4⟩ := ⟨hf.1, hf.2.1, hf.2.2.1, hq.2.2.2⟩
  have hnet : ipv4NetworkStr (ipNet3 f ++ '.' :: decStr q.o4) (decStr p) =
      some (ipv4Str (mask4 ⟨f.o1, f.o2, f.o3, q.o4⟩ p) ++ '/' :: decStr p) := by
    rw [hmix]
    unfold ipv4NetworkStr
    rw [ipv4Parse_str _ hmixOk, hpf.2.2.1]
    simp
  unfold ipAnonData
  rw [if_pos (cidr_count q hq (decStr p) hpf.2.1)]
  simp only [cidr_contains q (decStr p), cidr_split q hq (decStr p) hpf.1,
    List.headD_cons, List.getD_cons_succ, List.getD_cons_zero, if_true,
    hpf.2.2.2, hdec, Bool.true_and, ipv4Parse_str q hq]
  rw [gen_new_ip_v4_miss q f hq hf _ st hfresh (by simp [hgen])]
  simp only [hnet]

theorem ipAnonData_cidr_invalid (g : Gen) (fs : PyStr) (st : St) (q f : Quad)
    (hq : QOk q) (hf : QOk f) (mask : PyStr) (hmdot : '.' ∉ mask) (hmsl : '/' ∉ mask)
    (hbad : pyInt mask = none ∨ ∃ v : Int, pyInt mask = some v ∧ ¬(0 ≤ v ∧ v ≤ 32))
    (hfresh : slookup st.networks (ipNet3 q) = none)
    (hgen : g.gipv4 st.tick = ipv4Str f) :
    ipAnonData g fs (ipv4Str q ++ '/' :: mask) st =
      some (vstr (ipNet3 f ++ '.' :: decStr q.o4),
        ⟨st.cache, st.domains, (ipNet3 q, ipNet3 f) :: st.networks,
         st.ctype, st.tick + 1, st.warns⟩) := by
  unfold ipAnonData
  rw [if_pos (cidr_count q hq mask hmdot)]
  rcases hbad with hn | ⟨v, hv, hnv⟩
  · simp only [cidr_contains q mask, cidr_split q hq mask hmsl,
      List.headD_cons, List.getD_cons_succ, List.getD_cons_zero, if_true,
      hn, Bool.and_false, ipv4Parse_str q hq]
    rw [gen_new_ip_v4_miss q f hq hf _ st hfresh (by simp [hgen])]
    rfl
  · simp only [cidr_contains q mask, cidr_split q hq mask hmsl,
      List.headD_cons, List.getD_cons_succ, List.getD_cons_zero, if_true,
      hv, decide_eq_false hnv, Bool.and_false, ipv4Parse_str q hq]
    rw [gen_new_ip_v4_miss q f hq hf _ st hfresh (by simp [hgen])]
    rfl

/-- C4 counterexample: the host octets are NOT preserved in a valid CIDR —
192.168.1.7/24 comes back as 200.1.2.0/24 (host bits zeroed by the
non-strict network constructor), not 200.1.2.7/24; and an out-of-range mask
is not treated as part of a literal host — 1.2.3.4/99 is split anyway, the
mask silently dropped, and the bare host anonymized. -/
theorem C4_counterexample :
    ipAnonData cg ("addr").data (("192.168.1.7/24").data) St.empty =
      some (vstr ("200.1.2.0/24").data, stC4) ∧
    (("200.1.2.0/24").data : PyStr) ≠ ("200.1.2.7/24").data ∧
    ipAnonData cg ("addr").data (("1.2.3.4/99").data) St.empty =
      some (vstr ("200.1.2.4").data, stC4b) ∧
    (("200.1.2.4").data : PyStr) ≠ ("1.2.3.4/99").data :=
  ⟨by decide, by decide, by decide, by decide⟩

/-- C4 (amended): for an IPv4 input in valid CIDR form with a canonical
decimal mask, the handler returns N/mask with the mask digits unchanged,
where N is the network address of the substituted address — the generated
/24 with the original's host octet reattached and then all host bits below
the mask zeroed by the strict=False network normalization (so for /24 the
host octet is zeroed rather than preserved); a '/' whose suffix does not
parse as an integer in [0, 32] does NOT make the whole string a literal
host: the suffix is split off and dropped, and the part before the '/' is
anonymized as a bare address. -/
theorem C4_cidr_behavior (g : Gen) (fs : PyStr) (st : St) (q f : Quad)
    (hq : QOk q) (hf : QOk f) (p : Nat) (hp : p ≤ 32)
    (mask : PyStr) (hmdot : '.' ∉ mask) (hmsl : '/' ∉ mask)
    (hbad : pyInt mask = none ∨ ∃ v : Int, pyInt mask = some v ∧ ¬(0 ≤ v ∧ v ≤ 32))
    (hfresh : slookup st.networks (ipNet3 q) = none)
    (hgen : g.gipv4 st.tick = ipv4Str f) :
    ipAnonData g fs (ipv4Str q ++ '/' :: decStr p) st =
      some (vstr (ipv4Str (mask4 ⟨f.o1, f.o2, f.o3, q.o4⟩ p) ++ '/' :: decStr p),
        ⟨st.cache, st.domains, (ipNet3 q, ipNet3 f) :: st.networks,
         st.ctype, st.tick + 1, st.warns⟩) ∧
    ipAnonData g fs (ipv4Str q ++ '/' :: mask) st =
      some (vstr (ipNet3 f ++ '.' :: decStr q.o4),
        ⟨st.cache, st.domains, (ipNet3 q, ipNet3 f) :: st.networks,
         st.ctype, st.tick + 1, st.warns⟩) :=
  ⟨ipAnonData_cidr_valid g fs st q f hq hf p hp hfresh hgen,
   ipAnonData_cidr_invalid g fs st q f hq hf mask hmdot hmsl hbad hfresh hgen⟩

/-- C4 witness: 192.168.1.7/24 under a 200.1.2.3 generator draw yields the
masked substitute with mask digits unchanged, and mask 99 is dropped. -/
theorem C4_witness :
    ipAnonData cg ("addr").data (ipv4Str ⟨192, 168, 1, 7⟩ ++ '/' :: decStr 24) St.empty =
      some (vstr (ipv4Str (mask4 ⟨200, 1, 2, 7⟩ 24) ++ '/' :: decStr 24), stC4) ∧
    ipAnonData cg ("addr").data (ipv4Str ⟨192, 168, 1, 7⟩ ++ '/' :: ("99").data) St.empty =
      some (vstr (ipNet3 ⟨200, 1, 2, 3⟩ ++ '.' :: decStr 7), stC4) :=
  C4_cidr_behavior cg (("addr").data) St.empty ⟨192, 168, 1, 7⟩ ⟨200, 1, 2, 3⟩
    (by decide) (by decide) 24 (by decide) (("99").data) (by decide) (by decide)
    (Or.inr ⟨99, by decide, by decide⟩) rfl (by decide)

/-! ## EmailField.anonymize on split inputs -/

theorem pyLower_split (l d : PyStr) :
    pyLower (l ++ '@' :: d) = pyLower l ++ '@' :: pyLower d := by
  simp [pyLower]

theorem anonymize_email_at (g : Gen) (h : Handler) (hty : h.htype = HType.hemail)
    (s l d : PyStr) (st : St)
    (hsplit : pyLower s = l ++ '@' :: d)
    (hl : '@' ∉ l) (hd : '@' ∉ d)
    (hfr : clookup st.cache (vstr (l ++ '@' :: d)) = none) :
    (slookup st.domains d = none →
      anonymize g h (vstr s) st =
        some (vstr (g.gemail (g.gdomainName 1 st.tick) (st.tick + 1)),
          ⟨(vstr (l ++ '@' :: d),
            vstr (g.gemail (g.gdomainName 1 st.tick) (st.tick + 1))) :: st.cache,
           (d, g.gdomainName 1 st.tick) :: st.domains, st.networks, st.ctype,
           st.tick + 2, st.warns⟩)) ∧
    (∀ dom, slookup st.domains d = some dom →
      anonymize g h (vstr s) st =
        some (vstr (g.gemail dom st.tick),
          ⟨(vstr (l ++ '@' :: d), vstr (g.gemail dom st.tick)) :: st.cache,
           st.domains, st.networks, st.ctype, st.tick + 1, st.warns⟩)) := by
  have hcv : cleanV h.htype (vstr s) = some (vstr (l ++ '@' :: d)) := by
    rw [hty]
    show some (vstr (pyLower s)) = _
    rw [hsplit]
  have hcs : cleanSt h.htype (vstr s) st = st := by rw [hty]; rfl
  have hnil : (l ++ '@' :: d) ≠ [] := by simp
  have hsc : (pyEq (vstr (l ++ '@' :: d)) vnull ||
      pyEq (vstr (l ++ '@' :: d)) (vstr [])) = false := by
    show (false || ((l ++ '@' :: d) == ([] : PyStr))) = false
    rw [beq_eq_false_iff_ne.mpr hnil]
    rfl
  have hparts : pySplit (l ++ '@' :: d) '@' = [l, d] := by
    rw [pySplit_sep _ _ _ (fun x hx e => hl (by subst e; exact hx)),
      pySplit_nosep _ _ (fun x hx e => hd (by subst e; exact hx))]
  constructor
  · intro hdfr
    unfold anonymize
    rw [hcv]
    simp only [hcs, hsc, Bool.false_eq_true, if_false, hfr]
    have had : anonData g h (vstr (l ++ '@' :: d)) st =
        some (vstr (g.gemail (g.gdomainName 1 st.tick) (st.tick + 1)),
          ⟨st.cache, (d, g.gdomainName 1 st.tick) :: st.domains, st.networks,
           st.ctype, st.tick + 2, st.warns⟩) := by
      unfold anonData
      rw [hty]
      simp only [hparts]
      rw [if_pos (show ([l, d] : List PyStr).length > 1 by simp)]
      simp only [List.getD_cons_succ, List.getD_cons_zero]
      rw [hdfr]
    rw [had]
  · intro dom hdom
    unfold anonymize
    rw [hcv]
    simp only [hcs, hsc, Bool.false_eq_true, if_false, hfr]
    have had : anonData g h (vstr (l ++ '@' :: d)) st =
        some (vstr (g.gemail dom st.tick),
          ⟨st.cache, st.domains, st.networks, st.ctype, st.tick + 1, st.warns⟩) := by
      unfold anonData
      rw [hty]
      simp only [hparts]
      rw [if_pos (show ([l, d] : List PyStr).length > 1 by simp)]
      simp only [List.getD_cons_succ, List.getD_cons_zero]
      rw [hdom]
    rw [had]

theorem anonymize_email_noat (g : Gen) (h : Handler) (hty : h.htype = HType.hemail)
    (s : PyStr) (st : St)
    (hno : '@' ∉ pyLower s) (hne : pyLower s ≠ [])
    (hfr : clookup st.cache (vstr (pyLower s)) = none) :
    anonymize g h (vstr s) st =
      some (vstr (g.gemail ("company.com").data st.tick),
        ⟨(vstr (pyLower s), vstr (g.gemail ("company.com").data st.tick)) :: st.cache,
         st.domains, st.networks, st.ctype, st.tick + 1, st.warns⟩) := by
  have hcv : cleanV h.htype (vstr s) = some (vstr (pyLower s)) := by
    rw [hty]
    rfl
  have hcs : cleanSt h.htype (vstr s) st = st := by rw [hty]; rfl
  have hsc : (pyEq (vstr (pyLower s)) vnull || pyEq (vstr (pyLower s)) (vstr [])) = false := by
    show (false || ((pyLower s) == ([] : PyStr))) = false
    rw [beq_eq_false_iff_ne.mpr hne]
    rfl
  have hparts : pySplit (pyLower s) '@' = [pyLower s] :=
    pySplit_nosep _ _ (fun x hx e => hno (by subst e; exact hx))
  unfold anonymize
  rw [hcv]
  simp only [hcs, hsc, Bool.false_eq_true, if_false, hfr]
  have had : anonData g h (vstr (pyLower s)) st =
      some (vstr (g.gemail ("company.com").data st.tick),
        ⟨st.cache, st.domains, st.networks, st.ctype, st.tick + 1, st.warns⟩) := by
    unfold anonData
    rw [hty]
    simp only [hparts]
    rw [if_neg (show ¬(([pyLower s] : List PyStr).length > 1) by simp)]
  rw [had]

/-- C7 counterexample: an email with a different original domain need not get
a different substitute domain — the generator can repeat a domain draw, and
the code never checks; x.com and y.com both map to fake.org. -/
theorem C7_counterexample :
    anonymize cgDom hEm (vstr ("a@x.com").data) St.empty =
      some (vstr ("u1@fake.org").data, stD1) ∧
    anonymize cgDom hEm (vstr ("c@y.com").data) stD1 =
      some (vstr ("u3@fake.org").data, stD2) ∧
    (pySplit ("u1@fake.org").data '@').getD 1 [] =
      (pySplit ("u3@fake.org").data '@').getD 1 [] ∧
    (("x.com").data : PyStr) ≠ ("y.com").data :=
  ⟨by decide, by decide, by decide, by decide⟩

/-- C7 (amended): two email inputs with the same (lowercased) domain part are
substituted by emails requested from the generator at the same substitute
domain — the one cached in the domain topology map at first sight — so their
substitute domain parts are equal; an email with a different original domain
gets an email at an independently drawn substitute domain (distinct exactly
when the generator's draws differ, which the code does not enforce); an
input without '@' gets an email at the fixed fallback domain company.com. -/
theorem C7_email_domains (g : Gen) (h : Handler) (st : St) (hty : h.htype = HType.hemail)
    (s1 s2 s3 s0 l1 l2 l3 d d2 : PyStr)
    (hs1 : pyLower s1 = l1 ++ '@' :: d) (hs2 : pyLower s2 = l2 ++ '@' :: d)
    (hs3 : pyLower s3 = l3 ++ '@' :: d2)
    (hl1 : '@' ∉ l1) (hl2 : '@' ∉ l2) (hl3 : '@' ∉ l3) (hd : '@' ∉ d) (hd2 : '@' ∉ d2)
    (hfr1 : clookup st.cache (vstr (l1 ++ '@' :: d)) = none)
    (hdfr : slookup st.domains d = none)
    (hfr2 : clookup st.cache (vstr (l2 ++ '@' :: d)) = none)
    (hne21 : ((l2 ++ '@' :: d : PyStr) == (l1 ++ '@' :: d : PyStr)) = false)
    (hfr3 : clookup st.cache (vstr (l3 ++ '@' :: d2)) = none)
    (hne31 : ((l3 ++ '@' :: d2 : PyStr) == (l1 ++ '@' :: d : PyStr)) = false)
    (hne32 : ((l3 ++ '@' :: d2 : PyStr) == (l2 ++ '@' :: d : PyStr)) = false)
    (hd2fr : slookup st.domains d2 = none) (hd2d : d2 ≠ d)
    (hno : '@' ∉ pyLower s0) (hs0ne : pyLower s0 ≠ [])
    (hfr0 : clookup st.cache (vstr (pyLower s0)) = none) :
    anonymize g h (vstr s1) st =
      some (vstr (g.gemail (g.gdomainName 1 st.tick) (st.tick + 1)),
        ⟨(vstr (l1 ++ '@' :: d),
          vstr (g.gemail (g.gdomainName 1 st.tick) (st.tick + 1))) :: st.cache,
         (d, g.gdomainName 1 st.tick) :: st.domains, st.networks, st.ctype,
         st.tick + 2, st.warns⟩) ∧
    anonymize g h (vstr s2)
        ⟨(vstr (l1 ++ '@' :: d),
          vstr (g.gemail (g.gdomainName 1 st.tick) (st.tick + 1))) :: st.cache,
         (d, g.gdomainName 1 st.tick) :: st.domains, st.networks, st.ctype,
         st.tick + 2, st.warns⟩ =
      some (vstr (g.gemail (g.gdomainName 1 st.tick) (st.tick + 2)),
        ⟨(vstr (l2 ++ '@' :: d),
          vstr (g.gemail (g.gdomainName 1 st.tick) (st.tick + 2))) ::
         (vstr (l1 ++ '@' :: d),
          vstr (g.gemail (g.gdomainName 1 st.tick) (st.tick + 1))) :: st.cache,
         (d, g.gdomainName 1 st.tick) :: st.domains, st.networks, st.ctype,
         st.tick + 3, st.warns⟩) ∧
    anonymize g h (vstr s3)
        ⟨(vstr (l2 ++ '@' :: d),
          vstr (g.gemail (g.gdomainName 1 st.tick) (st.tick + 2))) ::
         (vstr (l1 ++ '@' :: d),
          vstr (g.gemail (g.gdomainName 1 st.tick) (st.tick + 1))) :: st.cache,
         (d, g.gdomainName 1 st.tick) :: st.domains, st.networks, st.ctype,
         st.tick + 3, st.warns⟩ =
      some (vstr (g.gemail (g.gdomainName 1 (st.tick + 3)) (st.tick + 4)),
        ⟨(vstr (l3 ++ '@' :: d2),
          vstr (g.gemail (g.gdomainName 1 (st.tick + 3)) (st.tick + 4))) ::
         (vstr (l2 ++ '@' :: d),
          vstr (g.gemail (g.gdomainName 1 st.tick) (st.tick + 2))) ::
         (vstr (l1 ++ '@' :: d),
          vstr (g.gemail (g.gdomainName 1 st.tick) (st.tick + 1))) :: st.cache,
         (d2, g.gdomainName 1 (st.tick + 3)) :: (d, g.gdomainName 1 st.tick) :: st.domains,
         st.networks, st.ctype, st.tick + 5, st.warns⟩) ∧
    anonymize g h (vstr s0) st =
      some (vstr (g.gemail ("company.com").data st.tick),
        ⟨(vstr (pyLower s0), vstr (g.gemail ("company.com").data st.tick)) :: st.cache,
         st.domains, st.networks, st.ctype, st.tick + 1, st.warns⟩) := by
  refine ⟨(anonymize_email_at g h hty s1 l1 d st hs1 hl1 hd hfr1).1 hdfr, ?_, ?_,
    anonymize_email_noat g h hty s0 st hno hs0ne hfr0⟩
  · have hfr2' : clookup
        ((vstr (l1 ++ '@' :: d),
          vstr (g.gemail (g.gdomainName 1 st.tick) (st.tick + 1))) :: st.cache)
        (vstr (l2 ++ '@' :: d)) = none := by
      have e : pyEq (vstr (l2 ++ '@' :: d)) (vstr (l1 ++ '@' :: d)) = false := hne21
      simp only [clookup, e, Bool.false_eq_true, if_false, hfr2]
    have := (anonymize_email_at g h hty s2 l2 d
        ⟨(vstr (l1 ++ '@' :: d),
          vstr (g.gemail (g.gdomainName 1 st.tick) (st.tick + 1))) :: st.cache,
         (d, g.gdomainName 1 st.tick) :: st.domains, st.networks, st.ctype,
         st.tick + 2, st.warns⟩ hs2 hl2 hd hfr2').2
        (g.gdomainName 1 st.tick) (by simp [slookup])
    exact this
  · have hfr3' : clookup
        ((vstr (l2 ++ '@' :: d),
          vstr (g.gemail (g.gdomainName 1 st.tick) (st.tick + 2))) ::
         (vstr (l1 ++ '@' :: d),
          vstr (g.gemail (g.gdomainName 1 st.tick) (st.tick + 1))) :: st.cache)
        (vstr (l3 ++ '@' :: d2)) = none := by
      have e1 : pyEq (vstr (l3 ++ '@' :: d2)) (vstr (l2 ++ '@' :: d)) = false := hne32
      have e2 : pyEq (vstr (l3 ++ '@' :: d2)) (vstr (l1 ++ '@' :: d)) = false := hne31
      simp only [clookup, e1, e2, Bool.false_eq_true, if_false, hfr3]
    have hdfr' : slookup ((d, g.gdomainName 1 st.tick) :: st.domains) d2 = none := by
      simp only [slookup, if_neg hd2d, hd2fr]
    have := (anonymize_email_at g h hty s3 l3 d2
        ⟨(vstr (l2 ++ '@' :: d),
          vstr (g.gemail (g.gdomainName 1 st.tick) (st.tick + 2))) ::
         (vstr (l1 ++ '@' :: d),
          vstr (g.gemail (g.gdomainName 1 st.tick) (st.tick + 1))) :: st.cache,
         (d, g.gdomainName 1 st.tick) :: st.domains, st.networks, st.ctype,
         st.tick + 3, st.warns⟩ hs3 hl3 hd2 hfr3').1 hdfr'
    exact this

/-- C7 witness: a@x.com and b@x.com both receive substitutes at fake0.org,
c@y.com at a separately drawn domain, and a value without '@' at
company.com. -/
theorem C7_witness :
    anonymize cg hEm (vstr ("a@x.com").data) St.empty =
      some (vstr ("u1@fake0.org").data, stW1) ∧
    anonymize cg hEm (vstr ("b@x.com").data) stW1 =
      some (vstr ("u2@fake0.org").data, stW2) ∧
    anonymize cg hEm (vstr ("c@y.com").data) stW2 =
      some (vstr ("u4@fake3.org").data, stW3) ∧
    anonymize cg hEm (vstr ("nodomain").data) St.empty =
      some (vstr ("u0@company.com").data, stW0) :=
  C7_email_domains cg hEm St.empty rfl
    (("a@x.com").data) (("b@x.com").data) (("c@y.com").data) (("nodomain").data)
    (("a").data) (("b").data) (("c").data) (("x.com").data) (("y.com").data)
    (by decide) (by decide) (by decide)
    (by decide) (by decide) (by decide) (by decide) (by decide)
    rfl rfl rfl (by decide) rfl (by decide) (by decide) rfl (by decide)
    (by decide) (by decide) rfl

/-! ## Decimal digit strings: membership and value -/

theorem toDigitsCore_mem_aux :
    ∀ (f n : Nat) (acc : List Char) (c : Char),
      c ∈ Nat.toDigitsCore 10 f n acc → c ∈ acc ∨ ∃ k, k < 10 ∧ c = Nat.digitChar k := by
  intro f
  induction f with
  | zero => intro n acc c hc; exact Or.inl hc
  | succ f ih =>
      intro n acc c hc
      simp only [Nat.toDigitsCore] at hc
      by_cases hz : n / 10 = 0
      · rw [if_pos hz] at hc
        rcases List.mem_cons.mp hc with rfl | h
        · exact Or.inr ⟨n % 10, Nat.mod_lt _ (by norm_num), rfl⟩
        · exact Or.inl h
      · rw [if_neg hz] at hc
        rcases ih (n / 10) _ c hc with h | h
        · rcases List.mem_cons.mp h with rfl | h2
          · exact Or.inr ⟨n % 10, Nat.mod_lt _ (by norm_num), rfl⟩
          · exact Or.inl h2
        · exact Or.inr h

theorem decStr_mem (n : Nat) (c : Char) (hc : c ∈ decStr n) :
    ∃ k, k < 10 ∧ c = Nat.digitChar k := by
  rcases toDigitsCore_mem_aux _ n [] c hc with h | h
  · cases h
  · exact h

theorem digitChar_props : ∀ k : Nat, k < 10 →
    (Nat.digitChar k).isDigit = true ∧ Nat.digitChar k ≠ '.' ∧ Nat.digitChar k ≠ 'e' ∧
    Nat.digitChar k ≠ 'E' ∧ (Nat.digitChar k).isWhitespace = false ∧
    Nat.digitChar k ≠ '-' ∧ Nat.digitChar k ≠ '+' ∧ Nat.digitChar k ≠ '_' ∧
    (Nat.digitChar k).toNat - 48 = k := by
  decide

theorem decStr_isDigit (n : Nat) : ∀ c ∈ decStr n, c.isDigit = true := by
  intro c hc
  obtain ⟨k, hk, rfl⟩ := decStr_mem n c hc
  exact (digitChar_props k hk).1

theorem decStr_ne_dot (n : Nat) : ∀ c ∈ decStr n, c ≠ '.' := by
  intro c hc
  obtain ⟨k, hk, rfl⟩ := decStr_mem n c hc
  exact (digitChar_props k hk).2.1

theorem decStr_no_ws (n : Nat) : ∀ c ∈ decStr n, c.isWhitespace = false := by
  intro c hc
  obtain ⟨k, hk, rfl⟩ := decStr_mem n c hc
  exact (digitChar_props k hk).2.2.2.2.1

theorem toDigitsCore_ne_nil :
    ∀ (f n : Nat) (acc : List Char), (0 < f ∨ acc ≠ []) → Nat.toDigitsCore 10 f n acc ≠ [] := by
  intro f
  induction f with
  | zero =>
      intro n acc h
      rcases h with h | h
      · exact absurd h (by norm_num)
      · exact h
  | succ f ih =>
      intro n acc _
      simp only [Nat.toDigitsCore]
      by_cases hz : n / 10 = 0
      · rw [if_pos hz]; simp
      · rw [if_neg hz]
        exact ih (n / 10) _ (Or.inr (by simp))

theorem decStr_ne_nil (n : Nat) : decStr n ≠ [] := by
  exact toDigitsCore_ne_nil (n + 1) n [] (Or.inl (by omega))

/-! ## Decimal digit strings: value and length -/

theorem digitsVal_append_one (s : List Char) (c : Char) :
    digitsVal (s ++ [c]) = digitsVal s * 10 + (c.toNat - 48) := by
  simp [digitsVal, List.foldl_append]

theorem toDigitsCore_app :
    ∀ (f n : Nat) (acc : List Char),
      Nat.toDigitsCore 10 f n acc = Nat.toDigitsCore 10 f n [] ++ acc := by
  intro f
  induction f with
  | zero => intro n acc; rfl
  | succ f ih =>
      intro n acc
      simp only [Nat.toDigitsCore]
      by_cases hz : n / 10 = 0
      · rw [if_pos hz, if_pos hz]
        rfl
      · rw [if_neg hz, if_neg hz]
        rw [ih (n / 10) ((n % 10).digitChar :: acc), ih (n / 10) [(n % 10).digitChar]]
        simp

theorem toDigitsCore_val :
    ∀ (f n : Nat), n < 10 ^ f → digitsVal (Nat.toDigitsCore 10 f n []) = n := by
  intro f
  induction f with
  | zero =>
      intro n hn
      rw [pow_zero] at hn
      have h0 : n = 0 := by omega
      subst h0
      rfl
  | succ f ih =>
      intro n hn
      simp only [Nat.toDigitsCore]
      by_cases hz : n / 10 = 0
      · rw [if_pos hz]
        have hd := (digitChar_props (n % 10) (Nat.mod_lt _ (by norm_num))).2.2.2.2.2.2.2.2
        simp only [digitsVal, List.foldl_cons, List.foldl_nil]
        omega
      · rw [if_neg hz]
        rw [toDigitsCore_app]
        rw [digitsVal_append_one]
        have hlt : n / 10 < 10 ^ f := by
          rw [pow_succ] at hn
          omega
        rw [ih (n / 10) hlt]
        have hd := (digitChar_props (n % 10) (Nat.mod_lt _ (by norm_num))).2.2.2.2.2.2.2.2
        omega

theorem digitsVal_decStr (n : Nat) : digitsVal (decStr n) = n := by
  have h : n < 10 ^ (n + 1) :=
    lt_of_lt_of_le (Nat.lt_pow_self (by norm_num) n)
      (Nat.pow_le_pow_right (by norm_num) (Nat.le_succ n))
  unfold decStr Nat.toDigits
  exact toDigitsCore_val (n + 1) n h

theorem toDigitsCore_len :
    ∀ (f n j : Nat), n < 10 ^ j → 0 < j →
      (Nat.toDigitsCore 10 f n []).length ≤ j := by
  intro f
  induction f with
  | zero => intro n j _ _; simp [Nat.toDigitsCore]
  | succ f ih =>
      intro n j hn hj
      simp only [Nat.toDigitsCore]
      by_cases hz : n / 10 = 0
      · rw [if_pos hz]
        simpa using hj
      · rw [if_neg hz]
        rw [toDigitsCore_app]
        rw [List.length_append]
        have hj2 : 2 ≤ j := by
          rcases Nat.lt_or_ge j 2 with hc | hc
          · have hj1 : j = 1 := by omega
            subst hj1
            rw [pow_one] at hn
            omega
          · exact hc
        have hlt : n / 10 < 10 ^ (j - 1) := by
          have hpow : 10 ^ j = 10 ^ (j - 1) * 10 := by
            cases j with
            | zero => omega
            | succ j2 => rw [pow_succ]; simp
          rw [hpow] at hn
          omega
        have hih := ih (n / 10) (j - 1) hlt (by omega)
        simp only [List.length_singleton]
        omega

theorem decStr_len (n j : Nat) (hn : n < 10 ^ j) (hj : 0 < j) :
    (decStr n).length ≤ j := by
  unfold decStr Nat.toDigits
  exact toDigitsCore_len (n + 1) n j hn hj

theorem padZeros_length (s : PyStr) (k : Nat) (h : s.length ≤ k) :
    (padZeros s k).length = k := by
  simp [padZeros]
  omega

theorem digitsVal_padZeros (s : PyStr) (k : Nat) :
    digitsVal (padZeros s k) = digitsVal s := by
  unfold padZeros
  generalize (k - s.length) = j
  induction j with
  | zero => rfl
  | succ j ih =>
      rw [List.replicate_succ]
      simp only [List.cons_append]
      show digitsVal (List.replicate j '0' ++ s) = digitsVal s
      exact ih

theorem padZeros_mem (s : PyStr) (k : Nat) (c : Char) (hc : c ∈ padZeros s k) :
    c = '0' ∨ c ∈ s := by
  unfold padZeros at hc
  rcases List.mem_append.mp hc with h | h
  · exact Or.inl (List.eq_of_mem_replicate h)
  · exact Or.inr h

/-! ## Identity of the float-literal scanners on decimal digit strings -/

theorem dropWhile_false (p : Char → Bool) :
    ∀ s : PyStr, (∀ c ∈ s, p c = false) → s.dropWhile p = s := by
  intro s h
  cases s with
  | nil => rfl
  | cons a t =>
      rw [List.dropWhile_cons]
      rw [h a (by simp)]
      simp

theorem stripWS_id (s : PyStr) (h : ∀ c ∈ s, c.isWhitespace = false) :
    stripWS s = s := by
  unfold stripWS
  rw [dropWhile_false _ s h]
  rw [dropWhile_false _ s.reverse (fun c hc => h c (List.mem_reverse.mp hc))]
  exact List.reverse_reverse s

theorem splitOnExp_id :
    ∀ s : PyStr, (∀ c ∈ s, c ≠ 'e' ∧ c ≠ 'E') → splitOnExp s = (s, none) := by
  intro s
  induction s with
  | nil => intro _; rfl
  | cons a t ih =>
      intro h
      have ha := h a (by simp)
      simp only [splitOnExp]
      rw [if_neg (by tauto : ¬(a = 'e' ∨ a = 'E'))]
      rw [ih (fun c hc => h c (by simp [hc]))]

theorem decChars (a b k : Nat) :
    ∀ c ∈ decStr a ++ '.' :: padZeros (decStr b) k,
      c.isWhitespace = false ∧ c ≠ 'e' ∧ c ≠ 'E' := by
  intro c hc
  rcases List.mem_append.mp hc with h | h
  · obtain ⟨j, hj, rfl⟩ := decStr_mem a c h
    have hp := digitChar_props j hj
    exact ⟨hp.2.2.2.2.1, hp.2.2.1, hp.2.2.2.1⟩
  · rcases List.mem_cons.mp h with rfl | h2
    · exact ⟨by decide, by decide, by decide⟩
    · rcases padZeros_mem _ _ _ h2 with rfl | h3
      · exact ⟨by decide, by decide, by decide⟩
      · obtain ⟨j, hj, rfl⟩ := decStr_mem b c h3
        have hp := digitChar_props j hj
        exact ⟨hp.2.2.2.2.1, hp.2.2.1, hp.2.2.2.1⟩

theorem headD_digit (a : Nat) (X : PyStr) (d : Char) :
    ((decStr a ++ X).headD d).isDigit = true := by
  obtain ⟨c, cs, hcc⟩ : ∃ c cs, decStr a = c :: cs := by
    cases hd : decStr a with
    | nil => exact absurd hd (decStr_ne_nil a)
    | cons c cs => exact ⟨c, cs, rfl⟩
  rw [hcc, List.cons_append, List.headD_cons]
  exact decStr_isDigit a c (by rw [hcc]; exact List.mem_cons_self c cs)

theorem floatCore_dec (a b k : Nat) (hb : b < 10 ^ k) (hk : 0 < k) :
    pyFloatCore (decStr a ++ '.' :: padZeros (decStr b) k) =
      some ((a : ℚ) + (b : ℚ) / 10 ^ k) := by
  have hsplit : pySplit (decStr a ++ '.' :: padZeros (decStr b) k) '.' =
      [decStr a, padZeros (decStr b) k] := by
    rw [pySplit_sep _ _ _ (decStr_ne_dot a)]
    rw [pySplit_nosep _ _ (fun x hx => by
      rcases padZeros_mem _ _ _ hx with rfl | h3
      · decide
      · exact decStr_ne_dot b x h3)]
  have hcond : (decStr a ++ padZeros (decStr b) k) ≠ [] ∧
      (decStr a ++ padZeros (decStr b) k).all Char.isDigit := by
    constructor
    · intro hh
      exact decStr_ne_nil a (List.append_eq_nil.mp hh).1
    · simp only [List.all_append, Bool.and_eq_true, List.all_eq_true]
      refine ⟨fun x hx => decStr_isDigit a x hx, fun x hx => ?_⟩
      rcases padZeros_mem _ _ _ hx with rfl | h3
      · decide
      · exact decStr_isDigit b x h3
  unfold pyFloatCore
  rw [hsplit]
  dsimp only
  rw [if_pos hcond]
  rw [digitsVal_padZeros, digitsVal_decStr, digitsVal_decStr,
    padZeros_length _ _ (decStr_len b k hb hk)]

theorem parse_dec_nosign (a b k : Nat) (hb : b < 10 ^ k) (hk : 0 < k) :
    pyFloatParse (decStr a ++ '.' :: padZeros (decStr b) k) =
      some ((a : ℚ) + (b : ℚ) / 10 ^ k) := by
  have hws : stripWS (decStr a ++ '.' :: padZeros (decStr b) k) =
      decStr a ++ '.' :: padZeros (decStr b) k :=
    stripWS_id _ (fun c hc => (decChars a b k c hc).1)
  have hexp : splitOnExp (decStr a ++ '.' :: padZeros (decStr b) k) =
      (decStr a ++ '.' :: padZeros (decStr b) k, none) :=
    splitOnExp_id _ (fun c hc => (decChars a b k c hc).2)
  have hdig := headD_digit a ('.' :: padZeros (decStr b) k) ' '
  have hplus : (decStr a ++ '.' :: padZeros (decStr b) k).headD ' ' ≠ '+' := by
    intro h
    rw [h] at hdig
    exact absurd hdig (by decide)
  have hminus : (decStr a ++ '.' :: padZeros (decStr b) k).headD ' ' ≠ '-' := by
    intro h
    rw [h] at hdig
    exact absurd hdig (by decide)
  simp only [pyFloatParse]
  rw [hws]
  rw [if_neg hplus, if_neg hminus]
  dsimp only
  rw [hexp]
  dsimp only
  rw [floatCore_dec a b k hb hk]
  dsimp only
  rw [one_mul]

theorem parse_dec_negsign (a b k : Nat) (hb : b < 10 ^ k) (hk : 0 < k) :
    pyFloatParse ('-' :: (decStr a ++ '.' :: padZeros (decStr b) k)) =
      some (-((a : ℚ) + (b : ℚ) / 10 ^ k)) := by
  have hws : stripWS ('-' :: (decStr a ++ '.' :: padZeros (decStr b) k)) =
      '-' :: (decStr a ++ '.' :: padZeros (decStr b) k) := by
    refine stripWS_id _ (fun c hc => ?_)
    rcases List.mem_cons.mp hc with rfl | h2
    · decide
    · exact (decChars a b k c h2).1
  have hexp : splitOnExp (decStr a ++ '.' :: padZeros (decStr b) k) =
      (decStr a ++ '.' :: padZeros (decStr b) k, none) :=
    splitOnExp_id _ (fun c hc => (decChars a b k c hc).2)
  simp only [pyFloatParse]
  rw [hws]
  rw [List.headD_cons]
  rw [if_neg (by decide : ¬('-' : Char) = '+')]
  rw [if_pos rfl]
  rw [List.tail_cons]
  rw [hexp]
  dsimp only
  rw [floatCore_dec a b k hb hk]
  dsimp only
  rw [neg_one_mul]

/-! ## Round-trips through the 3-decimal format and str(float) -/

theorem key_div10 (n k : Nat) :
    ((n / 10 ^ k : Nat) : ℚ) + ((n % 10 ^ k : Nat) : ℚ) / (10 : ℚ) ^ k =
      (n : ℚ) / (10 : ℚ) ^ k := by
  have hm0 : ((10 : ℚ)) ^ k ≠ 0 := by positivity
  field_simp
  norm_cast
  rw [Nat.mul_comm]
  exact Nat.div_add_mod n (10 ^ k)

theorem key_div1000 (n : Nat) :
    ((n / 1000 : Nat) : ℚ) + ((n % 1000 : Nat) : ℚ) / (10 : ℚ) ^ 3 = (n : ℚ) / 1000 := by
  norm_num
  field_simp
  norm_cast
  omega

theorem pyFloatParse_fmt3 (x : ℚ) : pyFloatParse (fmt3 x) = some (val3 x) := by
  have hb : (rhe (|x| * 1000)).toNat % 1000 < 10 ^ 3 := by
    have := Nat.mod_lt (rhe (|x| * 1000)).toNat (show 0 < 1000 by norm_num)
    omega
  have hkey := key_div1000 (rhe (|x| * 1000)).toNat
  by_cases hx : x < 0
  · have hshape : fmt3 x = '-' :: (decStr ((rhe (|x| * 1000)).toNat / 1000) ++ '.' ::
        padZeros (decStr ((rhe (|x| * 1000)).toNat % 1000)) 3) := by
      unfold fmt3
      rw [if_pos hx]
      simp [List.append_assoc]
    rw [hshape, parse_dec_negsign _ _ 3 hb (by norm_num)]
    unfold val3
    rw [if_pos hx]
    rw [hkey]
    congr 1
    ring
  · have hshape : fmt3 x = decStr ((rhe (|x| * 1000)).toNat / 1000) ++ '.' ::
        padZeros (decStr ((rhe (|x| * 1000)).toNat % 1000)) 3 := by
      unfold fmt3
      rw [if_neg hx]
      simp [List.append_assoc]
    rw [hshape, parse_dec_nosign _ _ 3 hb (by norm_num)]
    unfold val3
    rw [if_neg hx]
    rw [hkey]
    congr 1
    ring

theorem rhe_int (n : Int) : rhe ((n : ℚ)) = n := by
  unfold rhe
  simp only [Int.floor_intCast, sub_self]
  rw [if_pos (by norm_num : (0 : ℚ) < 1 / 2)]

theorem ratDenOne (x : ℚ) (hx : x.den = 1) : ((x.num : ℤ) : ℚ) = x := by
  have h := Rat.num_div_den x
  rw [hx] at h
  simpa using h

theorem val3_exact (x : ℚ) (hx : (x * 1000).den = 1) : val3 x = x := by
  have h1 : (((x * 1000).num : ℤ) : ℚ) = x * 1000 := ratDenOne _ hx
  have hNQ : (((x * 1000).num.natAbs : ℕ) : ℚ) = |x| * 1000 := by
    rw [Int.cast_natAbs, Int.cast_abs, h1, abs_mul]
    norm_num
  have habs : |x| * 1000 = (((x * 1000).num.natAbs : ℤ) : ℚ) := by
    rw [Int.cast_natCast, hNQ]
  unfold val3
  rw [habs, rhe_int, Int.toNat_natCast, hNQ]
  by_cases hx0 : x < 0
  · rw [if_pos hx0, abs_of_neg hx0]
    ring
  · rw [if_neg hx0, abs_of_nonneg (not_lt.mp hx0)]
    ring

theorem pyFloatStr_ne_nil (q : ℚ) : pyFloatStr q ≠ [] := by
  cases hk : decExpSearch |q| with
  | none =>
      simp only [pyFloatStr]
      rw [hk]
      simp [decStr_ne_nil]
  | some k =>
      cases k with
      | zero =>
          simp only [pyFloatStr]
          rw [hk]
          simp [decStr_ne_nil]
      | succ j =>
          simp only [pyFloatStr]
          rw [hk]
          simp [decStr_ne_nil]

theorem pyFloatStr_parse (q : ℚ) (k : Nat) (hk : decExpSearch |q| = some k) :
    pyFloatParse (pyFloatStr q) = some q := by
  have hden : (|q| * (10 : ℚ) ^ k).den = 1 := by
    have hp := List.find?_some hk
    exact of_decide_eq_true hp
  cases k with
  | zero =>
      have hden0 : |q|.den = 1 := by
        rw [pow_zero, mul_one] at hden
        exact hden
      have hq0 : ((|q|.num : ℤ) : ℚ) = |q| := ratDenOne _ hden0
      have hnn : 0 ≤ |q|.num := Rat.num_nonneg.mpr (abs_nonneg q)
      have hcast : ((|q|.num.toNat : ℕ) : ℚ) = |q| := by
        rw [← hq0]
        exact_mod_cast congrArg (fun z : ℤ => (z : ℚ)) (Int.toNat_of_nonneg hnn)
      by_cases hq : q < 0
      · have hshape : pyFloatStr q =
            '-' :: (decStr |q|.num.toNat ++ '.' :: padZeros (decStr 0) 1) := by
          simp only [pyFloatStr]
          rw [hk]
          dsimp only
          rw [if_pos hq]
          rfl
        rw [hshape, parse_dec_negsign _ _ 1 (by norm_num) (by norm_num)]
        rw [hcast]
        congr 1
        rw [abs_of_neg hq]
        push_cast
        ring
      · have hshape : pyFloatStr q =
            decStr |q|.num.toNat ++ '.' :: padZeros (decStr 0) 1 := by
          simp only [pyFloatStr]
          rw [hk]
          dsimp only
          rw [if_neg hq]
          rfl
        rw [hshape, parse_dec_nosign _ _ 1 (by norm_num) (by norm_num)]
        rw [hcast]
        congr 1
        rw [abs_of_nonneg (by push_neg at hq; exact hq)]
        push_cast
        ring
  | succ j =>
      have hnum : (((|q| * (10 : ℚ) ^ (j + 1)).num : ℤ) : ℚ) = |q| * (10 : ℚ) ^ (j + 1) :=
        ratDenOne _ hden
      have hnn : 0 ≤ (|q| * (10 : ℚ) ^ (j + 1)).num := by
        rw [Rat.num_nonneg]
        positivity
      have hcast : (((|q| * (10 : ℚ) ^ (j + 1)).num.toNat : ℕ) : ℚ) =
          |q| * (10 : ℚ) ^ (j + 1) := by
        rw [← hnum]
        exact_mod_cast congrArg (fun z : ℤ => (z : ℚ)) (Int.toNat_of_nonneg hnn)
      have hb : (|q| * (10 : ℚ) ^ (j + 1)).num.toNat % 10 ^ (j + 1) < 10 ^ (j + 1) :=
        Nat.mod_lt _ (by positivity)
      have hkey := key_div10 (|q| * (10 : ℚ) ^ (j + 1)).num.toNat (j + 1)
      have hval : ((((|q| * (10 : ℚ) ^ (j + 1)).num.toNat : ℕ) : ℚ)) / (10 : ℚ) ^ (j + 1) =
          |q| := by
        rw [hcast]
        field_simp
      by_cases hq : q < 0
      · have hshape : pyFloatStr q =
            '-' :: (decStr ((|q| * (10 : ℚ) ^ (j + 1)).num.toNat / 10 ^ (j + 1)) ++ '.' ::
              padZeros (decStr ((|q| * (10 : ℚ) ^ (j + 1)).num.toNat % 10 ^ (j + 1))) (j + 1)) := by
          simp only [pyFloatStr]
          rw [hk]
          dsimp only
          rw [if_pos hq]
          show ['-'] ++ decStr _ ++ ['.'] ++ padZeros (decStr _) (j + 1) = _
          simp [List.append_assoc]
        rw [hshape, parse_dec_negsign _ _ (j + 1) hb (by positivity)]
        rw [hkey, hval]
        rw [abs_of_neg hq]
        norm_num
      · have hshape : pyFloatStr q =
            decStr ((|q| * (10 : ℚ) ^ (j + 1)).num.toNat / 10 ^ (j + 1)) ++ '.' ::
              padZeros (decStr ((|q| * (10 : ℚ) ^ (j + 1)).num.toNat % 10 ^ (j + 1))) (j + 1) := by
          simp only [pyFloatStr]
          rw [hk]
          dsimp only
          rw [if_neg hq]
          show [] ++ decStr _ ++ ['.'] ++ padZeros (decStr _) (j + 1) = _
          simp [List.append_assoc]
        rw [hshape, parse_dec_nosign _ _ (j + 1) hb (by positivity)]
        rw [hkey, hval]
        rw [abs_of_nonneg (by push_neg at hq; exact hq)]

/-- C8: for inputs reaching produce, the Coordinate handler adds an offset of
k/1000 with k drawn in [-500, 499], formats with "%.3f", and casts to the kind
recorded by clean — textual fresh input yields the formatted string, float
fresh input yields the parsed-back rounded rational (exactly input+offset, in
[input - 1/2, input + 499/1000], whenever the input sits at 0.001 resolution);
but on a cache hit the cached substitute is returned with whatever kind it was
first produced at, and an unparseable non-empty string is returned unchanged,
cached, with one warning carrying the field spec. -/
theorem C8_coordinate_jitter (g : Gen) (h : Handler) (st : St)
    (hty : h.htype = HType.hcoord) :
    (∃ kk : Int, coordOffset g st.tick = (kk : ℚ) / 1000 ∧ -500 ≤ kk ∧ kk ≤ 499) ∧
    (∀ s q, s ≠ [] → pyFloatParse s = some q →
      clookup st.cache (vstr s) = none →
      anonymize g h (vstr s) st =
        some (vstr (fmt3 (q + coordOffset g st.tick)),
          ⟨(vstr s, vstr (fmt3 (q + coordOffset g st.tick))) :: st.cache,
           st.domains, st.networks, CKind.kstr, st.tick + 1, st.warns⟩)) ∧
    (∀ q k, decExpSearch |q| = some k →
      clookup st.cache (vstr (pyFloatStr q)) = none →
      anonymize g h (vfloat q) st =
        some (vfloat (val3 (q + coordOffset g st.tick)),
          ⟨(vstr (pyFloatStr q), vfloat (val3 (q + coordOffset g st.tick))) :: st.cache,
           st.domains, st.networks, CKind.kfloat, st.tick + 1, st.warns⟩)) ∧
    (∀ q : ℚ, (q * 1000).den = 1 →
      val3 (q + coordOffset g st.tick) = q + coordOffset g st.tick ∧
      q - 1 / 2 ≤ q + coordOffset g st.tick ∧
      q + coordOffset g st.tick ≤ q + 499 / 1000) ∧
    (∀ s cv, s ≠ [] → clookup st.cache (vstr s) = some cv →
      anonymize g h (vstr s) st = some (cv, { st with ctype := CKind.kstr })) ∧
    (∀ s, s ≠ [] → pyFloatParse s = none →
      clookup st.cache (vstr s) = none →
      anonymize g h (vstr s) st =
        some (vstr s,
          ⟨(vstr s, vstr s) :: st.cache, st.domains, st.networks, CKind.kstr,
           st.tick, st.warns ++ [Warn.parseCoord s h.fieldSpec]⟩)) := by
  have hoffex : ∃ kk : Int, coordOffset g st.tick = (kk : ℚ) / 1000 ∧
      -500 ≤ kk ∧ kk ≤ 499 := by
    refine ⟨(g.grand st.tick : Int) % 1000 - 500, ?_, ?_, ?_⟩
    · unfold coordOffset
      push_cast
      ring
    · have h1 : 0 ≤ (g.grand st.tick : Int) % 1000 := Int.emod_nonneg _ (by norm_num)
      omega
    · have h2 : (g.grand st.tick : Int) % 1000 < 1000 := Int.emod_lt_of_pos _ (by norm_num)
      omega
  refine ⟨hoffex, ?_, ?_, ?_, ?_, ?_⟩
  · intro s q hs hq hmiss
    have hcv : cleanV h.htype (vstr s) = some (vstr s) := by rw [hty]; rfl
    have hst1 : cleanSt h.htype (vstr s) st = { st with ctype := CKind.kstr } := by rw [hty]; rfl
    have hbe : (s == ([] : PyStr)) = false := beq_eq_false_iff_ne.mpr hs
    have hdata : anonData g h (vstr s) { st with ctype := CKind.kstr } =
        some (vstr (fmt3 (q + coordOffset g st.tick)),
          ⟨st.cache, st.domains, st.networks, CKind.kstr, st.tick + 1, st.warns⟩) := by
      unfold anonData
      rw [hty]
      dsimp only
      rw [show floatOfValue (vstr s) = pyFloatParse s from rfl, hq]
      rfl
    unfold anonymize
    rw [hcv]
    dsimp only
    rw [hst1]
    rw [show pyEq (vstr s) vnull = false from rfl,
      show pyEq (vstr s) (vstr []) = (s == []) from rfl, hbe]
    simp only [Bool.or_self, Bool.false_eq_true, if_false]
    rw [hmiss]
    rw [hdata]
  · intro q k hk hmiss
    have hfs := pyFloatStr_ne_nil q
    have hcv : cleanV h.htype (vfloat q) = some (vstr (pyFloatStr q)) := by rw [hty]; rfl
    have hst1 : cleanSt h.htype (vfloat q) st = { st with ctype := CKind.kfloat } := by
      rw [hty]; rfl
    have hbe : (pyFloatStr q == ([] : PyStr)) = false := beq_eq_false_iff_ne.mpr hfs
    have hparse : pyFloatParse (pyFloatStr q) = some q := pyFloatStr_parse q k hk
    have hdata : anonData g h (vstr (pyFloatStr q)) { st with ctype := CKind.kfloat } =
        some (vfloat (val3 (q + coordOffset g st.tick)),
          ⟨st.cache, st.domains, st.networks, CKind.kfloat, st.tick + 1, st.warns⟩) := by
      unfold anonData
      rw [hty]
      dsimp only
      rw [show floatOfValue (vstr (pyFloatStr q)) = pyFloatParse (pyFloatStr q) from rfl,
        hparse]
      dsimp only
      rw [pyFloatParse_fmt3]
      rfl
    unfold anonymize
    rw [hcv]
    dsimp only
    rw [hst1]
    rw [show pyEq (vstr (pyFloatStr q)) vnull = false from rfl,
      show pyEq (vstr (pyFloatStr q)) (vstr []) = (pyFloatStr q == []) from rfl, hbe]
    simp only [Bool.or_self, Bool.false_eq_true, if_false]
    rw [hmiss]
    rw [hdata]
  · intro q hden
    obtain ⟨kk, hoff, hk1, hk2⟩ := hoffex
    have hsum : ((q + coordOffset g st.tick) * 1000).den = 1 := by
      have hq1 : (((q * 1000).num : ℤ) : ℚ) = q * 1000 := ratDenOne _ hden
      have hsum2 : (q + coordOffset g st.tick) * 1000 = (((q * 1000).num + kk : ℤ) : ℚ) := by
        rw [hoff]
        push_cast
        rw [hq1]
        ring
      rw [hsum2]
      exact Rat.den_intCast _
    have hkQ1 : (-500 : ℚ) ≤ (kk : ℚ) := by exact_mod_cast hk1
    have hkQ2 : (kk : ℚ) ≤ 499 := by exact_mod_cast hk2
    refine ⟨val3_exact _ hsum, ?_, ?_⟩
    · rw [hoff]
      linarith
    · rw [hoff]
      linarith
  · intro s cv hs hhit
    have hcv : cleanV h.htype (vstr s) = some (vstr s) := by rw [hty]; rfl
    have hst1 : cleanSt h.htype (vstr s) st = { st with ctype := CKind.kstr } := by rw [hty]; rfl
    have hbe : (s == ([] : PyStr)) = false := beq_eq_false_iff_ne.mpr hs
    unfold anonymize
    rw [hcv]
    dsimp only
    rw [hst1]
    rw [show pyEq (vstr s) vnull = false from rfl,
      show pyEq (vstr s) (vstr []) = (s == []) from rfl, hbe]
    simp only [Bool.or_self, Bool.false_eq_true, if_false]
    rw [hhit]
  · intro s hs hqn hmiss
    have hcv : cleanV h.htype (vstr s) = some (vstr s) := by rw [hty]; rfl
    have hst1 : cleanSt h.htype (vstr s) st = { st with ctype := CKind.kstr } := by rw [hty]; rfl
    have hbe : (s == ([] : PyStr)) = false := beq_eq_false_iff_ne.mpr hs
    have hdata : anonData g h (vstr s) { st with ctype := CKind.kstr } =
        some (vstr s,
          ⟨st.cache, st.domains, st.networks, CKind.kstr, st.tick,
           st.warns ++ [Warn.parseCoord s h.fieldSpec]⟩) := by
      unfold anonData
      rw [hty]
      dsimp only
      rw [show floatOfValue (vstr s) = pyFloatParse s from rfl, hqn]
      rfl
    unfold anonymize
    rw [hcv]
    dsimp only
    rw [hst1]
    rw [show pyEq (vstr s) vnull = false from rfl,
      show pyEq (vstr s) (vstr []) = (s == []) from rfl, hbe]
    simp only [Bool.or_self, Bool.false_eq_true, if_false]
    rw [hmiss]
    rw [hdata]

/-! ## Coordinate handler: concrete evaluation -/

section CoordEval

attribute [local semireducible] Rat.add Rat.mul Rat.inv Rat.sub Rat.ofScientific

/-- C8: the Coordinate handler casts its jittered result to the representation
kind recorded by the most recent clean, but the shared value cache overrides
it: a float input 40.73 caches the numeric substitute 40.23 under the key
"40.73", and a later textual input "40.73" hits that entry and returns the
NUMERIC value, so textual input does not always yield textual output. -/
theorem C8_counterexample :
    anonymize cg hCo (vfloat (4073 / 100)) St.empty =
      some (vfloat (4023 / 100), stCo1) ∧
    anonymize cg hCo (vstr ("40.73").data) stCo1 =
      some (vfloat (4023 / 100), stCo2) :=
  ⟨by decide, by decide⟩

/-- C8 witness: the amended coordinate behaviour evaluated at concrete inputs
under the deterministic generator (draw 0, hence offset -0.5): a fresh textual
"40.7" yields the string "40.200", a fresh float 1.375 yields the float 0.875,
the unparseable "not-a-coord" comes back unchanged with one warning, a textual
hit on the float-cached "40.73" returns the numeric 40.23, and at 0.001
resolution the jittered value is exact and within the advertised bound. -/
theorem C8_witness :
    anonymize cg hCo (vstr ("40.7").data) St.empty =
      some (vstr ("40.200").data,
        ⟨[(vstr ("40.7").data, vstr ("40.200").data)], [], [], CKind.kstr, 1, []⟩) ∧
    anonymize cg hCo (vfloat (11 / 8)) St.empty =
      some (vfloat (7 / 8),
        ⟨[(vstr ("1.375").data, vfloat (7 / 8))], [], [], CKind.kfloat, 1, []⟩) ∧
    anonymize cg hCo (vstr ("not-a-coord").data) St.empty =
      some (vstr ("not-a-coord").data,
        ⟨[(vstr ("not-a-coord").data, vstr ("not-a-coord").data)], [], [],
         CKind.kstr, 0, [Warn.parseCoord (("not-a-coord").data) (("lat").data)]⟩) ∧
    anonymize cg hCo (vstr ("40.73").data) stCo1 = some (vfloat (4023 / 100), stCo2) ∧
    val3 ((4073 / 100 : ℚ) + coordOffset cg 0) = (4073 / 100 : ℚ) + coordOffset cg 0 ∧
    (4073 / 100 : ℚ) - 1 / 2 ≤ (4073 / 100 : ℚ) + coordOffset cg 0 := by
  have H := C8_coordinate_jitter cg hCo St.empty rfl
  have H1 := C8_coordinate_jitter cg hCo stCo1 rfl
  refine ⟨?_, ?_, ?_, ?_, ?_, ?_⟩
  · exact H.2.1 (("40.7").data) (407 / 10) (by decide) (by decide) rfl
  · exact H.2.2.1 (11 / 8) 3 (by decide) rfl
  · exact H.2.2.2.2.2 (("not-a-coord").data) (by decide) (by decide) rfl
  · exact H1.2.2.2.2.1 (("40.73").data) (vfloat (4023 / 100)) (by decide) (by decide)
  · exact (H.2.2.2.1 (4073 / 100) (by decide)).1
  · exact (H.2.2.2.1 (4073 / 100) (by decide)).2.1

end CoordEval
